import Mathlib

/-!
Shallow embedding of the handle/registry/update-message subsystem of the
crystal-engine repository, together with proofs of the frozen claims.

Numeric convention: the `f32` scalars of the source are embedded as `ℚ`.
The claims under verification only ever copy, store and compare these
scalars, or combine them by ring operations that are computed symbolically
here, so the embedding is exact for every statement proved below.

The trigonometric functions used by the euler-to-matrix conversion come
from the platform libm; they are taken as parameters `sin cos : ℚ → ℚ`
of the embedding rather than fixed functions.

The repository snapshot contains two revisions of `src/model/data.rs`.
The revision embedded here is the one `src/model/handle.rs` and
`src/model/builder.rs` are written against: `ModelData` has exactly the
fields `position`, `rotation`, `scale`, `groups`.
-/

namespace CrystalEngine

/-! ## Math layer (src/src/math) -/

/-- Embeds `math::Vector3` (three `f32` components). -/
structure Vector3 where
  x : ℚ
  y : ℚ
  z : ℚ
deriving DecidableEq, Repr

def Vector3.zero : Vector3 := ⟨0, 0, 0⟩

/-- Embeds `math::Euler` (three `Rad` angles, each a plain `f32`). -/
structure Euler where
  x : ℚ
  y : ℚ
  z : ℚ
deriving DecidableEq, Repr

def Euler.zero : Euler := ⟨0, 0, 0⟩

/-- Embeds `math::Matrix4`, a `[[f32; 4]; 4]`.  Field `mij` is entry
`self.0[i][j]`; following cgmath this array is column-major, so `i` is the
column index and `j` the row index. -/
structure Matrix4 where
  m00 : ℚ
  m01 : ℚ
  m02 : ℚ
  m03 : ℚ
  m10 : ℚ
  m11 : ℚ
  m12 : ℚ
  m13 : ℚ
  m20 : ℚ
  m21 : ℚ
  m22 : ℚ
  m23 : ℚ
  m30 : ℚ
  m31 : ℚ
  m32 : ℚ
  m33 : ℚ
deriving DecidableEq, Repr

/-- `Matrix4::identity` (delegates to `cgmath::Matrix4::identity`). -/
def Matrix4.identity : Matrix4 :=
  ⟨1, 0, 0, 0,
   0, 1, 0, 0,
   0, 0, 1, 0,
   0, 0, 0, 1⟩

/-- `Matrix4::from_translation`: identity with the translation vector in
column 3 (cgmath convention). -/
def Matrix4.from_translation (p : Vector3) : Matrix4 :=
  ⟨1, 0, 0, 0,
   0, 1, 0, 0,
   0, 0, 1, 0,
   p.x, p.y, p.z, 1⟩

/-- `Matrix4::from_scale`: uniform scale on the three spatial axes. -/
def Matrix4.from_scale (s : ℚ) : Matrix4 :=
  ⟨s, 0, 0, 0,
   0, s, 0, 0,
   0, 0, s, 0,
   0, 0, 0, 1⟩

/-- `impl From<Euler> for Matrix4` (src/src/math/matrix4.rs lines 68 to 84):
the matrix is built by `Matrix4::new` from the sines and cosines of the
three angles.  `sin` and `cos` are the libm functions, taken as
parameters. -/
def Matrix4.fromEuler (sin cos : ℚ → ℚ) (e : Euler) : Matrix4 :=
  let sx := sin e.x
  let cx := cos e.x
  let sy := sin e.y
  let cy := cos e.y
  let sz := sin e.z
  let cz := cos e.z
  ⟨cy * cz, cx * sz + sx * sy * cz, sx * sz - cx * sy * cz, 0,
   -cy * sz, cx * cz - sx * sy * sz, sx * cz + cx * sy * sz, 0,
   sy, -sx * cy, cx * cy, 0,
   0, 0, 0, 1⟩

/-- `impl Mul for Matrix4` (delegates to `cgmath::Matrix4::mul`):
`(a.mul b).mij = Σ k, a.mkj * b.mik` — the standard product with the
column-major layout. -/
def Matrix4.mul (a b : Matrix4) : Matrix4 :=
  ⟨a.m00 * b.m00 + a.m10 * b.m01 + a.m20 * b.m02 + a.m30 * b.m03,
   a.m01 * b.m00 + a.m11 * b.m01 + a.m21 * b.m02 + a.m31 * b.m03,
   a.m02 * b.m00 + a.m12 * b.m01 + a.m22 * b.m02 + a.m32 * b.m03,
   a.m03 * b.m00 + a.m13 * b.m01 + a.m23 * b.m02 + a.m33 * b.m03,
   a.m00 * b.m10 + a.m10 * b.m11 + a.m20 * b.m12 + a.m30 * b.m13,
   a.m01 * b.m10 + a.m11 * b.m11 + a.m21 * b.m12 + a.m31 * b.m13,
   a.m02 * b.m10 + a.m12 * b.m11 + a.m22 * b.m12 + a.m32 * b.m13,
   a.m03 * b.m10 + a.m13 * b.m11 + a.m23 * b.m12 + a.m33 * b.m13,
   a.m00 * b.m20 + a.m10 * b.m21 + a.m20 * b.m22 + a.m30 * b.m23,
   a.m01 * b.m20 + a.m11 * b.m21 + a.m21 * b.m22 + a.m31 * b.m23,
   a.m02 * b.m20 + a.m12 * b.m21 + a.m22 * b.m22 + a.m32 * b.m23,
   a.m03 * b.m20 + a.m13 * b.m21 + a.m23 * b.m22 + a.m33 * b.m23,
   a.m00 * b.m30 + a.m10 * b.m31 + a.m20 * b.m32 + a.m30 * b.m33,
   a.m01 * b.m30 + a.m11 * b.m31 + a.m21 * b.m32 + a.m31 * b.m33,
   a.m02 * b.m30 + a.m12 * b.m31 + a.m22 * b.m32 + a.m32 * b.m33,
   a.m03 * b.m30 + a.m13 * b.m31 + a.m23 * b.m32 + a.m33 * b.m33⟩

/-! ## Model data (src/src/model/data.rs) -/

/-- `ModelDataGroup`: the per-group transform, defaulting to the identity. -/
structure ModelDataGroup where
  matrix : Matrix4
deriving DecidableEq, Repr

/-- `impl Default for ModelDataGroup`. -/
def ModelDataGroup.default : ModelDataGroup := ⟨Matrix4.identity⟩

/-- `ModelData`: mutable per-handle transform state (the revision used by
`handle.rs` and `builder.rs`: fields `position`, `rotation`, `scale`,
`groups`). -/
structure ModelData where
  position : Vector3
  rotation : Euler
  scale : ℚ
  groups : List ModelDataGroup
deriving DecidableEq, Repr

/-- `ModelData::matrix` (src/src/model/data.rs lines 60 to 64):
`Matrix4::from_translation(position) * Matrix4::from(rotation) *
Matrix4::from_scale(scale)`, left associated as in Rust. -/
def ModelData.matrix (sin cos : ℚ → ℚ) (d : ModelData) : Matrix4 :=
  ((Matrix4.from_translation d.position).mul
    (Matrix4.fromEuler sin cos d.rotation)).mul
    (Matrix4.from_scale d.scale)

/-- The per-group world matrix computed by `Model::render`
(src/src/model/render.rs line 41): `base_matrix * group_data.matrix`. -/
def renderWorldMatrix (base : Matrix4) (group_data : ModelDataGroup) : Matrix4 :=
  base.mul group_data.matrix

/-! ## Assets and builder (src/src/model/mod.rs, loader/mod.rs, builder.rs) -/

/-- `Material` (src/src/model/mod.rs): color multipliers of a part. -/
structure Material where
  ambient : Vector3
  diffuse : Vector3
  specular : Vector3
  shininess : ℚ
deriving DecidableEq, Repr

/-- `Vertex` (src/src/model/mod.rs): position, normal, texture coordinate. -/
structure Vertex where
  position : Vector3
  normal : Vector3
  tex_u : ℚ
  tex_v : ℚ
deriving DecidableEq, Repr

/-- `ParsedTexture` (src/src/model/loader/mod.rs). -/
structure ParsedTexture where
  width : ℕ
  height : ℕ
  rgba_data : List ℕ
deriving DecidableEq, Repr

/-- `ParsedModelPart` (src/src/model/loader/mod.rs). -/
structure ParsedModelPart where
  vertices : Option (List Vertex)
  index : List ℕ
  material : Option Material
  texture : Option ParsedTexture
deriving DecidableEq, Repr

/-- `ParsedModel` (src/src/model/loader/mod.rs). -/
structure ParsedModel where
  vertices : Option (List Vertex)
  parts : List ParsedModelPart
deriving DecidableEq, Repr

/-- A decoded image, the successful result of `image::open(path).to_rgba()`. -/
structure Image where
  width : ℕ
  height : ℕ
  rgba : List ℕ
deriving DecidableEq, Repr

/-- A GPU texture (`Arc<ImmutableImage<R8G8B8A8Srgb>>`), identified by the
pixel data it was uploaded from.  GPU upload itself (and its future) is out
of scope; upload is modelled as always succeeding, matching the `unwrap`
calls on `ImmutableImage::from_iter` in the source. -/
inductive Tex
| ofImage (img : Image)
| ofParsed (t : ParsedTexture)
deriving DecidableEq, Repr

/-- `ModelGroup` (src/src/model/mod.rs).  A GPU vertex or index buffer is
identified by its contents; `CpuAccessibleBuffer::from_iter` is modelled as
always succeeding. -/
structure ModelGroup where
  vertex_buffer : Option (List Vertex)
  material : Option Material
  texture : Option Tex
  index : Option (List ℕ)
deriving DecidableEq, Repr

/-- `ModelGroup::from_tex`. -/
def ModelGroup.from_tex (texture : Option Tex) : ModelGroup :=
  { vertex_buffer := none, material := none, texture := texture, index := none }

/-- `ModelGroup::from_part` (src/src/model/mod.rs lines 56 to 102): takes
the part vertices and index as buffers, a part-level texture when present,
otherwise a copy of the builder-level texture.  `material` is always set to
`None` by this function. -/
def ModelGroup.from_part (texture : Option Tex) (part : ParsedModelPart) : ModelGroup :=
  { vertex_buffer := part.vertices,
    material := none,
    texture :=
      match part.texture with
      | some pt => some (Tex.ofParsed pt)
      | none => texture,
    index := some part.index }

/-- `Model` (src/src/model/mod.rs): the immutable shared asset.  The
`texture_future` list is GPU-upload bookkeeping, out of scope here. -/
structure Model where
  vertex_buffer : Option (List Vertex)
  groups : List ModelGroup
deriving DecidableEq, Repr

/-- `ModelError` (src/src/error.rs); the inner errors of the texture, OBJ
and FBX loaders are represented by their message. -/
inductive ModelError
| CouldNotLoadTexture (path : String)
| InvalidModelVertexBuffer
| Obj (inner : String)
| Fbx (inner : String)
deriving DecidableEq, Repr

/-- `SourceOrShape` (src/src/model/loader/mod.rs). -/
inductive SourceOrShape
| Obj (path : String)
| Fbx (path : String)
| Triangle
| Rectangle
| Custom (m : ParsedModel)

/-- The external collaborators of the builder: the file-based model loaders
and the image decoder.  These read the filesystem and are out of scope; an
`Env` records their outcome for each path. -/
structure Env where
  objLoad : String → Except String ParsedModel
  fbxLoad : String → Except String ParsedModel
  imageOpen : String → Option Image

/-- The `TRIANGLE` constant of src/src/model/loader/mod.rs. -/
def TRIANGLE : List Vertex :=
  [⟨⟨-(1/2), -(1/4), 0⟩, ⟨0, 0, 0⟩, 0, 0⟩,
   ⟨⟨0, 1/2, 0⟩, ⟨0, 0, 0⟩, 1, 0⟩,
   ⟨⟨1/4, -(1/10), 0⟩, ⟨0, 0, 0⟩, 1, 1⟩]

/-- The vertex list of the `RECTANGLE` constant. -/
def RECTANGLE_VERTICES : List Vertex :=
  [⟨⟨-(1/2), -(1/2), 0⟩, ⟨0, 0, 1⟩, 0, 1⟩,
   ⟨⟨1/2, -(1/2), 0⟩, ⟨0, 0, 1⟩, 1, 1⟩,
   ⟨⟨1/2, 1/2, 0⟩, ⟨0, 0, 1⟩, 1, 0⟩,
   ⟨⟨-(1/2), 1/2, 0⟩, ⟨0, 0, 1⟩, 0, 0⟩]

/-- `TRIANGLE.into()`: a `ParsedModel` with the vertices and no parts. -/
def triangleParsed : ParsedModel := { vertices := some TRIANGLE, parts := [] }

/-- `RECTANGLE.into()`: vertices plus one part holding only the index list. -/
def rectangleParsed : ParsedModel :=
  { vertices := some RECTANGLE_VERTICES,
    parts := [{ vertices := none, index := [0, 1, 2, 0, 2, 3],
                material := none, texture := none }] }

/-- `SourceOrShape::parse` (src/src/model/loader/mod.rs lines 21 to 34). -/
def SourceOrShape.parse (env : Env) : SourceOrShape → Except ModelError ParsedModel
| .Obj src => (env.objLoad src).mapError ModelError.Obj
| .Fbx src => (env.fbxLoad src).mapError ModelError.Fbx
| .Rectangle => .ok rectangleParsed
| .Triangle => .ok triangleParsed
| .Custom m => .ok m

/-- `load_texture` (src/src/model/builder.rs lines 154 to 175): decode the
image at `path` (fails with `CouldNotLoadTexture`), then upload it
(`ImmutableImage::from_iter(..).unwrap()`, modelled as always
succeeding). -/
def load_texture (env : Env) (path : String) : Except ModelError Tex :=
  match env.imageOpen path with
  | none => .error (ModelError.CouldNotLoadTexture path)
  | some img => .ok (Tex.ofImage img)

/-- `ModelBuilder` (src/src/model/builder.rs).  The `game_state` borrow is
passed separately to `build`. -/
structure ModelBuilder where
  source_or_shape : SourceOrShape
  fallback_color : Option Vector3
  texture : Option String
  position : Vector3
  rotation : Vector3
  scale : ℚ

/-- `ModelBuilder::new`: default overrides. -/
def ModelBuilder.new (source_or_shape : SourceOrShape) : ModelBuilder :=
  { source_or_shape := source_or_shape, fallback_color := none, texture := none,
    position := Vector3.zero, rotation := Vector3.zero, scale := 1 }

/-- The texture-loading step of `ModelBuilder::build` (lines 81 to 86). -/
def ModelBuilder.loadBuilderTexture (env : Env) (b : ModelBuilder) :
    Except ModelError (Option Tex) :=
  match b.texture with
  | some path => (load_texture env path).map some
  | none => .ok none

/-- The model assembled by `ModelBuilder::build` (lines 88 to 123): the
top-level vertex buffer from the source vertices, one group per parsed
part, and a dummy group carrying only the builder texture when there are
no parts. -/
def ModelBuilder.constructedModel (tex : Option Tex) (source : ParsedModel) : Model :=
  let groups := source.parts.map (ModelGroup.from_part tex)
  let groups := if groups.isEmpty then [ModelGroup.from_tex tex] else groups
  { vertex_buffer := source.vertices, groups := groups }

/-- The emptiness test of `ModelBuilder::build` line 125:
`model.vertex_buffer.is_none() && model.groups.iter().all(|g| g.vertex_buffer.is_none())`. -/
def Model.hasNoVertexBuffer (m : Model) : Bool :=
  m.vertex_buffer.isNone && m.groups.all fun g => g.vertex_buffer.isNone

/-! ## Handles, registry, update messages
(src/src/model/handle.rs, src/src/internal.rs, src/src/game_state.rs)

Heap identity of the shared cells is made explicit: an `Arc<RwLock<ModelData>>`
is a numeric reference into a `dataStore`, an `Arc<Model>` a numeric
reference into an `assetStore`.  Cloning an `Arc` copies the reference;
`Arc::new` allocates a fresh one. -/

/-- The state of a `parking_lot::RwLock`. -/
inductive LockState
| unlocked
| readLocked (n : ℕ)
| writeLocked
deriving DecidableEq, Repr

/-- An allocated `RwLock<ModelData>` cell. -/
structure DataCell where
  lock : LockState
  value : ModelData
deriving DecidableEq, Repr

/-- `ModelRef` (src/src/model/handle.rs): a registry entry pairing the
shared asset with the shared data cell. -/
structure ModelRef where
  model : ℕ
  data : ℕ
deriving DecidableEq, Repr

/-- `ModelHandle` (src/src/model/handle.rs): id plus the shared data cell;
the channel sender is implicit (there is a single channel). -/
structure ModelHandle where
  id : ℕ
  data : ℕ
deriving DecidableEq, Repr

/-- `UpdateMessage` (src/src/internal.rs); only the model variants are
relevant to the claims, the GUI variants mirror them on a disjoint map. -/
inductive UpdateMessage
| NewModel (old_id : ℕ) (new_id : ℕ) (data : ℕ)
| ModelDropped (id : ℕ)
deriving DecidableEq, Repr

/-- The registry map type of `GameState.model_handles`
(`HashMap<u64, ModelRef>`), as a lookup function. -/
def RegMap : Type := ℕ → Option ModelRef

/-- `HashMap::insert`. -/
def mapInsert {α : Type} (m : ℕ → Option α) (k : ℕ) (v : α) : ℕ → Option α :=
  fun n => if n = k then some v else m n

/-- `HashMap::remove`. -/
def mapRemove {α : Type} (m : ℕ → Option α) (k : ℕ) : ℕ → Option α :=
  fun n => if n = k then none else m n

/-- `ModelRef::with_new_data` (src/src/model/handle.rs lines 143 to 148):
same asset, new data cell. -/
def ModelRef.with_new_data (r : ModelRef) (data : ℕ) : ModelRef :=
  { model := r.model, data := data }

/-- The registry action of `UpdateMessage::apply` (src/src/internal.rs
lines 20 to 49).  The `NewModel` arm indexes the map with `old_id`
(`&game_state.model_handles[&old_id]`), which panics when the key is
absent; the panic is modelled by `none`. -/
def applyReg : UpdateMessage → RegMap → Option RegMap
| .ModelDropped i, reg => some (mapRemove reg i)
| .NewModel old_id new_id data, reg =>
  (reg old_id).map fun old => mapInsert reg new_id (old.with_new_data data)

/-- The drain loop of `WindowState::update` (src/src/render/window.rs lines
213 to 215) restricted to the registry: apply each buffered message in FIFO
order, propagating a panic as `none`. -/
def drainReg : List UpdateMessage → RegMap → Option RegMap
| [], reg => some reg
| m :: rest, reg => (applyReg m reg).bind (drainReg rest)

/-- `GameState` (src/src/game_state.rs) restricted to the model subsystem,
together with the heap (`dataStore`, `assetStore`), the allocation counters
(the `static ID: AtomicU64` of handle.rs and the `Arc` identities), the
channel buffer `queue`, and the ghost list `live` of handles currently
owned by user code. -/
@[ext]
structure GameState where
  model_handles : RegMap
  queue : List UpdateMessage
  dataStore : ℕ → Option DataCell
  assetStore : ℕ → Option Model
  nextId : ℕ
  nextRef : ℕ
  nextAsset : ℕ
  live : List ModelHandle

/-- `UpdateMessage::apply` acting on the game state. -/
def UpdateMessage.apply (m : UpdateMessage) (gs : GameState) : Option GameState :=
  (applyReg m gs.model_handles).map fun R => { gs with model_handles := R }

/-- A full drain of the channel: apply every buffered message in order; the
channel is empty afterwards. -/
def GameState.drain (gs : GameState) : Option GameState :=
  (drainReg gs.queue gs.model_handles).map fun R =>
    { gs with model_handles := R, queue := [] }

/-- Result of `ModelRef::new`. -/
structure NewModelRef where
  id : ℕ
  mref : ModelRef
  handle : ModelHandle
  state : GameState

/-- `ModelRef::new` (src/src/model/handle.rs lines 118 to 142): allocate a
fresh id from the shared counter, rebuild `data.groups` as one default
group per asset group, allocate the shared data cell, and return the id,
the registry entry and the handle, both referencing that cell. -/
def ModelRef.new (gs : GameState) (assetId : ℕ) (m : Model) (data : ModelData) :
    NewModelRef :=
  let id := gs.nextId
  let groups := List.replicate m.groups.length ModelDataGroup.default
  let data := { data with groups := groups }
  let r := gs.nextRef
  { id := id,
    mref := { model := assetId, data := r },
    handle := { id := id, data := r },
    state :=
      { gs with
          nextId := id + 1, nextRef := r + 1,
          dataStore := mapInsert gs.dataStore r ⟨LockState.unlocked, data⟩ } }

/-- `ModelBuilder::build` (src/src/model/builder.rs lines 72 to 146):
parse the source, load the optional texture, assemble the model, fail on a
missing vertex buffer, otherwise allocate the asset (`Arc::new(model)`),
create the registry entry and handle via `ModelRef::new`, insert the entry
into `game_state.model_handles`, and return the handle. -/
def ModelBuilder.build (env : Env) (b : ModelBuilder) (gs : GameState) :
    Except ModelError ModelHandle × GameState :=
  match b.source_or_shape.parse env with
  | .error e => (.error e, gs)
  | .ok source =>
    match b.loadBuilderTexture env with
    | .error e => (.error e, gs)
    | .ok tex =>
      let model := ModelBuilder.constructedModel tex source
      if model.hasNoVertexBuffer then
        (.error ModelError.InvalidModelVertexBuffer, gs)
      else
        let dgroups := List.replicate model.groups.length ModelDataGroup.default
        let aid := gs.nextAsset
        let gs1 :=
          { gs with
              assetStore := mapInsert gs.assetStore aid model,
              nextAsset := aid + 1 }
        let n := ModelRef.new gs1 aid model
          { position := b.position,
            rotation := ⟨b.rotation.x, b.rotation.y, b.rotation.z⟩,
            scale := b.scale, groups := dgroups }
        (.ok n.handle,
         { n.state with model_handles := mapInsert n.state.model_handles n.id n.mref })

/-- `impl Clone for ModelHandle` (src/src/model/handle.rs lines 72 to 99):
allocate a fresh id, read the current data under the shared lock, snapshot
position, rotation, scale and groups into a freshly allocated cell, send
`NewModel` with the old id, the new id and the new cell, and return the new
handle.  `none` only when the handle references no allocated cell, which
never happens for a live handle. -/
def ModelHandle.clone (gs : GameState) (h : ModelHandle) :
    Option (ModelHandle × GameState) :=
  (gs.dataStore h.data).map fun cell =>
    let new_id := gs.nextId
    let d := cell.value
    let snapshot : ModelData :=
      { position := d.position, rotation := d.rotation, scale := d.scale,
        groups := d.groups }
    let r := gs.nextRef
    (⟨new_id, r⟩,
      { gs with
          nextId := new_id + 1, nextRef := r + 1,
          dataStore := mapInsert gs.dataStore r ⟨LockState.unlocked, snapshot⟩,
          queue := gs.queue ++ [UpdateMessage.NewModel h.id new_id r] })

/-- `impl Drop for ModelHandle` (src/src/model/handle.rs lines 101 to 110):
send `ModelDropped(id)`; a send failure is ignored (the channel never fails
here since the receiver outlives the handles). -/
def ModelHandle.dropMsg (gs : GameState) (h : ModelHandle) : GameState :=
  { gs with queue := gs.queue ++ [UpdateMessage.ModelDropped h.id] }

/-- `ModelHandle::modify` at the cell level (src/src/model/handle.rs lines
66 to 69): `self.data.write()` acquires the exclusive lock, the callback
runs on the guarded value, and the guard is dropped on scope exit — also
during unwinding when the callback panics (`cb` returning `none` models a
panicking callback; the cell keeps its previous value and the lock is
released by the RAII guard). -/
def DataCell.modify {α : Type} (cell : DataCell)
    (cb : ModelData → Option (ModelData × α)) : DataCell × Option α :=
  let locked : DataCell := { cell with lock := LockState.writeLocked }
  match cb locked.value with
  | some (d, t) => (⟨LockState.unlocked, d⟩, some t)
  | none => (⟨LockState.unlocked, locked.value⟩, none)

/-- `ModelHandle::modify` acting on the state: runs the scoped mutation on
the cell the handle references. -/
def ModelHandle.modify {α : Type} (gs : GameState) (h : ModelHandle)
    (cb : ModelData → Option (ModelData × α)) : Option (GameState × Option α) :=
  (gs.dataStore h.data).map fun cell =>
    let r := cell.modify cb
    ({ gs with dataStore := mapInsert gs.dataStore h.data r.1 }, r.2)

/-- `ModelHandle::read` (src/src/model/handle.rs lines 53 to 56): run a
callback on the data under the shared lock. -/
def ModelHandle.read {α : Type} (gs : GameState) (h : ModelHandle)
    (cb : ModelData → α) : Option α :=
  (gs.dataStore h.data).map fun cell => cb cell.value

/-- The renderer-side read of a registry entry: the entry holds a second
reference to the same cell. -/
def ModelRef.readData (gs : GameState) (e : ModelRef) : Option ModelData :=
  (gs.dataStore e.data).map fun cell => cell.value

/-! ## User-code operations on handles -/

/-- The operations user code can perform on model handles: construct
through a builder, clone a live handle, drop a live handle, mutate a live
handle through `modify`. -/
inductive Op
| construct (env : Env) (b : ModelBuilder)
| cloneOp (i : ℕ)
| dropOp (i : ℕ)
| modifyOp (i : ℕ) (cb : ModelData → ModelData)

/-- One user-code operation.  `none` means the operation is not performable
(cloning, dropping or mutating a handle that is not alive — unreachable
under Rust ownership).  A failed build returns its error to the caller and
performs no registration. -/
def step (gs : GameState) : Op → Option GameState
| .construct env b =>
  match ModelBuilder.build env b gs with
  | (.ok h, gs2) => some { gs2 with live := gs2.live ++ [h] }
  | (.error _, gs2) => some gs2
| .cloneOp i =>
  (gs.live.find? fun h => h.id == i).bind fun h =>
    (ModelHandle.clone gs h).map fun p =>
      { p.2 with live := p.2.live ++ [p.1] }
| .dropOp i =>
  (gs.live.find? fun h => h.id == i).map fun h =>
    { (ModelHandle.dropMsg gs h) with live := gs.live.filter fun h2 => h2.id != i }
| .modifyOp i cb =>
  (gs.live.find? fun h => h.id == i).bind fun h =>
    (ModelHandle.modify gs h fun d => some (cb d, ())).map fun p => p.1

/-- A sequence of user-code operations. -/
def stepAll (gs : GameState) : List Op → Option GameState
| [] => some gs
| op :: rest => (step gs op).bind fun gs2 => stepAll gs2 rest

/-- The initial state: empty registry and channel, empty heap, the id
counter starts at 1 (`static ID: AtomicU64 = AtomicU64::new(1)`). -/
def initState : GameState :=
  { model_handles := fun _ => none, queue := [], dataStore := fun _ => none,
    assetStore := fun _ => none, nextId := 1, nextRef := 0, nextAsset := 0,
    live := [] }

/-! ## The frame loop (src/src/render/window.rs)

`Window::run` reacts to loop events: on `RedrawEventsCleared` it renders
from the registry and then calls `WindowState::update`, which runs the game
update callback and then drains the channel completely
(`while let Ok(msg) = receiver.try_recv() { msg.apply(..) }`); other window
events invoke game callbacks (`event`, `keydown`, `keyup`) that can also
operate on handles.  The ghost field `applied` records, in order, every
message that has been applied to the registry. -/

/-- The loop state: the game state plus the log of applied messages. -/
structure LoopState where
  gs : GameState
  applied : List UpdateMessage

/-- One iteration step of the event loop: an update step (game update
callback followed by the full drain), an event callback, or a render pass
(which reads the registry and changes nothing). -/
inductive LoopStep
| update (ops : List Op)
| event (ops : List Op)
| render

/-- Execute one loop step.  `none` when a handle operation is not
performable or the drain panics. -/
def execStep (st : LoopState) : LoopStep → Option LoopState
| .update ops =>
  (stepAll st.gs ops).bind fun gs1 =>
    (drainReg gs1.queue gs1.model_handles).map fun R =>
      { gs := { gs1 with model_handles := R, queue := [] },
        applied := st.applied ++ gs1.queue }
| .event ops => (stepAll st.gs ops).map fun gs1 => { st with gs := gs1 }
| .render => some st

/-- Execute a sequence of loop steps. -/
def execAll (st : LoopState) : List LoopStep → Option LoopState
| [] => some st
| s :: rest => (execStep st s).bind fun st2 => execAll st2 rest

/-! ## Invariants -/

/-- Well-formedness of a buffered message with respect to the allocation
counters and the heap. -/
def msgWF (gs : GameState) : UpdateMessage → Prop
| .NewModel old_id new_id data =>
    old_id < gs.nextId ∧ new_id < gs.nextId ∧ data < gs.nextRef ∧
    (gs.dataStore data).isSome
| .ModelDropped i => i < gs.nextId

/-- The state invariant maintained by every user-code operation.  The
`drain_ok` clause is the registry-completeness property: the full drain
succeeds and afterwards the registry keys are exactly the ids of the live
handles, each live handle sharing its data cell with its entry. -/
structure Inv (gs : GameState) : Prop where
  ids_nodup : (gs.live.map ModelHandle.id).Nodup
  refs_nodup : (gs.live.map ModelHandle.data).Nodup
  live_id_lt : ∀ h ∈ gs.live, h.id < gs.nextId
  live_ref_lt : ∀ h ∈ gs.live, h.data < gs.nextRef
  live_store : ∀ h ∈ gs.live, (gs.dataStore h.data).isSome
  reg_hi : ∀ n, gs.nextId ≤ n → gs.model_handles n = none
  reg_wf : ∀ n e, gs.model_handles n = some e →
      e.data < gs.nextRef ∧ e.model < gs.nextAsset ∧
      (gs.dataStore e.data).isSome ∧ (gs.assetStore e.model).isSome
  store_hi : ∀ r, gs.nextRef ≤ r → gs.dataStore r = none
  asset_hi : ∀ a, gs.nextAsset ≤ a → gs.assetStore a = none
  locks : ∀ r c, gs.dataStore r = some c → c.lock = LockState.unlocked
  msgs_wf : ∀ m ∈ gs.queue, msgWF gs m
  drain_ok : ∃ R, drainReg gs.queue gs.model_handles = some R ∧
      (∀ n, (R n).isSome ↔ n ∈ gs.live.map ModelHandle.id) ∧
      (∀ h ∈ gs.live, ∃ e, R h.id = some e ∧ e.data = h.data) ∧
      (∀ n e, R n = some e →
        e.data < gs.nextRef ∧ e.model < gs.nextAsset ∧
        (gs.dataStore e.data).isSome ∧ (gs.assetStore e.model).isSome)

/-- The group-count relation of one registry entry: the data cell of the
entry has exactly as many groups as the asset of the entry. -/
def lenOk (gs : GameState) (e : ModelRef) : Prop :=
  ∃ m c, gs.assetStore e.model = some m ∧ gs.dataStore e.data = some c ∧
    c.value.groups.length = m.groups.length

/-- The group-count invariant over the whole registry as the renderer sees
it after a full drain. -/
def GroupInvariant (gs : GameState) : Prop :=
  ∀ R, drainReg gs.queue gs.model_handles = some R →
    ∀ n e, R n = some e → lenOk gs e

/-- An operation whose `modify` callback (if any) preserves the length of
the groups vector. -/
def Op.lengthPreserving : Op → Prop
| .modifyOp _ cb => ∀ d, (cb d).groups.length = d.groups.length
| _ => True

/-! ## Concrete inputs used by the witnesses -/

/-- An environment whose external loaders all fail; the built-in shapes do
not consult it. -/
def envTrivial : Env :=
  { objLoad := fun _ => .error "no file system",
    fbxLoad := fun _ => .error "no file system",
    imageOpen := fun _ => none }

/-- `game_state.new_triangle_model()`: a builder for the built-in triangle
shape with default overrides. -/
def bTriangle : ModelBuilder := ModelBuilder.new SourceOrShape.Triangle

/-- A builder that requests a texture from a path the image decoder cannot
open. -/
def bTextured : ModelBuilder :=
  { ModelBuilder.new SourceOrShape.Triangle with texture := some "missing.png" }

/-! ## Theorems -/

/-- `mapInsert` at the inserted key. -/
theorem mapInsert_same {α : Type} (m : ℕ → Option α) (k : ℕ) (v : α) :
    mapInsert m k v k = some v := by
  simp [mapInsert]

/-- `mapInsert` at another key. -/
theorem mapInsert_ne {α : Type} (m : ℕ → Option α) (k : ℕ) (v : α) (n : ℕ)
    (h : n ≠ k) : mapInsert m k v n = m n := by
  simp [mapInsert, h]

/-- `mapRemove` at the removed key. -/
theorem mapRemove_same {α : Type} (m : ℕ → Option α) (k : ℕ) :
    mapRemove m k k = none := by
  simp [mapRemove]

/-- `mapRemove` at another key. -/
theorem mapRemove_ne {α : Type} (m : ℕ → Option α) (k : ℕ) (n : ℕ)
    (h : n ≠ k) : mapRemove m k n = m n := by
  simp [mapRemove, h]

/-- Two insertions at distinct keys commute. -/
theorem mapInsert_comm {α : Type} (m : ℕ → Option α) (k k2 : ℕ) (v v2 : α)
    (h : k ≠ k2) :
    mapInsert (mapInsert m k v) k2 v2 = mapInsert (mapInsert m k2 v2) k v := by
  funext n
  by_cases h1 : n = k2 <;> by_cases h2 : n = k <;>
    simp_all [mapInsert]

/-- Removal at one key commutes with insertion at another. -/
theorem mapRemove_mapInsert {α : Type} (m : ℕ → Option α) (k k2 : ℕ) (v : α)
    (h : k ≠ k2) :
    mapRemove (mapInsert m k v) k2 = mapInsert (mapRemove m k2) k v := by
  funext n
  by_cases h1 : n = k2 <;> by_cases h2 : n = k <;>
    simp_all [mapInsert, mapRemove]

/-- Draining a concatenation drains the first list, then the second. -/
theorem drainReg_append (q1 q2 : List UpdateMessage) (reg : RegMap) :
    drainReg (q1 ++ q2) reg = (drainReg q1 reg).bind (drainReg q2) := by
  induction q1 generalizing reg with
  | nil => simp [drainReg]
  | cons m rest ih =>
    simp only [List.cons_append, drainReg]
    cases applyReg m reg with
    | none => simp
    | some reg2 => simp [ih]

/-- A drain commutes with a previous insertion at a key no buffered message
mentions: the inserted entry rides along untouched. -/
theorem drainReg_mapInsert (q : List UpdateMessage) (reg : RegMap) (k : ℕ)
    (v : ModelRef)
    (hq : ∀ m ∈ q,
      (match m with
       | UpdateMessage.NewModel o n _ => o ≠ k ∧ n ≠ k
       | UpdateMessage.ModelDropped i => i ≠ k)) :
    drainReg q (mapInsert reg k v) =
      (drainReg q reg).map fun R => mapInsert R k v := by
  induction q generalizing reg with
  | nil => simp [drainReg]
  | cons m rest ih =>
    have hm := hq m (List.mem_cons_self m rest)
    have hrest : ∀ m2 ∈ rest,
        (match m2 with
         | UpdateMessage.NewModel o n _ => o ≠ k ∧ n ≠ k
         | UpdateMessage.ModelDropped i => i ≠ k) :=
      fun m2 hm2 => hq m2 (List.mem_cons_of_mem m hm2)
    cases m with
    | NewModel o n d =>
      obtain ⟨ho, hn⟩ := hm
      simp only [drainReg, applyReg, mapInsert_ne reg k v o ho]
      cases hro : reg o with
      | none => simp
      | some e =>
        simp only [Option.map_some', Option.some_bind]
        rw [mapInsert_comm reg k n v (e.with_new_data d) (fun hkn => hn hkn.symm),
          ih _ hrest]
    | ModelDropped i =>
      simp only [drainReg, applyReg, Option.some_bind]
      rw [mapRemove_mapInsert reg k i v (fun hki => hm hki.symm), ih _ hrest]

/-- Claim C9: the base matrix computed from the data of a handle equals
translation(position) * rotation(euler) * scale(scale), the world matrix of
each group equals base * group.matrix, and for position (1,2,3), identity
rotation, scale 2 and one group with identity matrix the world matrix of
that group equals translation(1,2,3) * identity * scale(2). -/
theorem matrix_composition (sin cos : ℚ → ℚ)
    (hsin : sin 0 = 0) (hcos : cos 0 = 1) :
    (∀ d : ModelData,
        d.matrix sin cos =
          ((Matrix4.from_translation d.position).mul
            (Matrix4.fromEuler sin cos d.rotation)).mul
            (Matrix4.from_scale d.scale)) ∧
    (∀ (base : Matrix4) (g : ModelDataGroup),
        renderWorldMatrix base g = base.mul g.matrix) ∧
    (renderWorldMatrix
        (ModelData.matrix sin cos
          { position := ⟨1, 2, 3⟩, rotation := Euler.zero, scale := 2,
            groups := [ModelDataGroup.default] })
        ModelDataGroup.default =
      ((Matrix4.from_translation ⟨1, 2, 3⟩).mul Matrix4.identity).mul
        (Matrix4.from_scale 2)) := by
  refine ⟨fun d => rfl, fun base g => rfl, ?_⟩
  simp only [renderWorldMatrix, ModelData.matrix, ModelDataGroup.default,
    Matrix4.fromEuler, Euler.zero, Matrix4.from_translation,
    Matrix4.from_scale, Matrix4.identity, Matrix4.mul, hsin, hcos]
  norm_num

/-- Witness for C9: the hypotheses hold for the concrete choice where both
trigonometric functions are evaluated at zero angles only. -/
theorem matrix_composition_witness :
    ((fun _ : ℚ => (0 : ℚ)) 0 = 0 ∧ (fun _ : ℚ => (1 : ℚ)) 0 = 1) ∧
    (renderWorldMatrix
        (ModelData.matrix (fun _ => 0) (fun _ => 1)
          { position := ⟨1, 2, 3⟩, rotation := Euler.zero, scale := 2,
            groups := [ModelDataGroup.default] })
        ModelDataGroup.default =
      ((Matrix4.from_translation ⟨1, 2, 3⟩).mul Matrix4.identity).mul
        (Matrix4.from_scale 2)) :=
  ⟨⟨rfl, rfl⟩,
    (matrix_composition (fun _ => 0) (fun _ => 1) rfl rfl).2.2⟩


/-- Case analysis of `ModelBuilder::build`: either it fails and returns the
game state untouched, or it succeeds and performs exactly the allocations
and the single registry insertion of the success path. -/
theorem build_result (env : Env) (b : ModelBuilder) (gs : GameState) :
    (∃ e, ModelBuilder.build env b gs = (.error e, gs)) ∨
    (∃ model : Model,
      ModelBuilder.build env b gs =
        (.ok ⟨gs.nextId, gs.nextRef⟩,
         { gs with
             model_handles := mapInsert gs.model_handles gs.nextId
               ⟨gs.nextAsset, gs.nextRef⟩,
             dataStore := mapInsert gs.dataStore gs.nextRef
               ⟨LockState.unlocked,
                ⟨b.position, ⟨b.rotation.x, b.rotation.y, b.rotation.z⟩, b.scale,
                 List.replicate model.groups.length ModelDataGroup.default⟩⟩,
             assetStore := mapInsert gs.assetStore gs.nextAsset model,
             nextId := gs.nextId + 1, nextRef := gs.nextRef + 1,
             nextAsset := gs.nextAsset + 1 }) ∧
      model.hasNoVertexBuffer = false ∧ 1 ≤ model.groups.length) := by
  unfold ModelBuilder.build
  cases hp : b.source_or_shape.parse env with
  | error e => exact .inl ⟨e, rfl⟩
  | ok source =>
    cases ht : b.loadBuilderTexture env with
    | error e => exact .inl ⟨e, rfl⟩
    | ok tex =>
      cases hnv : (ModelBuilder.constructedModel tex source).hasNoVertexBuffer with
      | true => exact .inl ⟨ModelError.InvalidModelVertexBuffer, by simp [hnv]⟩
      | false =>
        refine .inr ⟨ModelBuilder.constructedModel tex source, ?_, hnv, ?_⟩
        · simp only [hnv, Bool.false_eq_true, if_false]
          rfl
        · unfold ModelBuilder.constructedModel
          cases hps : source.parts with
          | nil => simp
          | cons p ps => simp [List.isEmpty]

/-- Claim C6: the builder fails with `InvalidModelVertexBuffer` exactly
when the assembled model has no top-level vertex buffer and no group-level
vertex buffer; when at least one such buffer exists the build never fails
for this reason. -/
theorem empty_geometry_build_error (env : Env) (b : ModelBuilder)
    (gs : GameState) (source : ParsedModel) (tex : Option Tex)
    (hp : b.source_or_shape.parse env = .ok source)
    (ht : b.loadBuilderTexture env = .ok tex) :
    ((ModelBuilder.build env b gs).1 =
        .error ModelError.InvalidModelVertexBuffer ↔
      (ModelBuilder.constructedModel tex source).hasNoVertexBuffer = true) ∧
    ((ModelBuilder.constructedModel tex source).hasNoVertexBuffer = true ↔
      ((ModelBuilder.constructedModel tex source).vertex_buffer = none ∧
        ∀ g ∈ (ModelBuilder.constructedModel tex source).groups,
          g.vertex_buffer = none)) := by
  constructor
  · unfold ModelBuilder.build
    rw [hp, ht]
    cases hnv : (ModelBuilder.constructedModel tex source).hasNoVertexBuffer with
    | true => simp [hnv]
    | false => simp [hnv]
  · unfold Model.hasNoVertexBuffer
    simp [Option.isNone_iff_eq_none, List.all_eq_true]

/-- Witness for C6: the triangle builder with no texture; its model has a
top-level vertex buffer, so the emptiness test is false and the build does
not fail. -/
theorem empty_geometry_build_error_witness :
    (bTriangle.source_or_shape.parse envTrivial = .ok triangleParsed ∧
      bTriangle.loadBuilderTexture envTrivial = .ok none) ∧
    ((ModelBuilder.build envTrivial bTriangle initState).1 =
        .error ModelError.InvalidModelVertexBuffer ↔ False) := by
  have h := empty_geometry_build_error envTrivial bTriangle initState
    triangleParsed none rfl rfl
  refine ⟨⟨rfl, rfl⟩, h.1.trans ?_⟩
  rw [h.2]
  simp [ModelBuilder.constructedModel, triangleParsed]

/-- Claim C7: a failing build leaves the registry map untouched; a
successful build inserts exactly one entry, keyed by the id of the returned
handle, which was not a key before. -/
theorem builder_atomicity (env : Env) (b : ModelBuilder) (gs : GameState)
    (hfresh : ∀ n, gs.nextId ≤ n → gs.model_handles n = none) :
    (∀ e gs2, ModelBuilder.build env b gs = (.error e, gs2) →
      gs2.model_handles = gs.model_handles) ∧
    (∀ h gs2, ModelBuilder.build env b gs = (.ok h, gs2) →
      gs.model_handles h.id = none ∧
      ∃ entry, gs2.model_handles = mapInsert gs.model_handles h.id entry) := by
  rcases build_result env b gs with ⟨e, he⟩ | ⟨model, hok, hnv, hlen⟩
  · constructor
    · intro e2 gs2 h2
      rw [he] at h2
      obtain ⟨-, h4⟩ := Prod.mk.injEq .. ▸ h2
      rw [← h4]
    · intro h gs2 h2
      rw [he] at h2
      obtain ⟨h3, -⟩ := Prod.mk.injEq .. ▸ h2
      exact absurd h3 (by simp)
  · constructor
    · intro e gs2 h2
      rw [hok] at h2
      obtain ⟨h3, -⟩ := Prod.mk.injEq .. ▸ h2
      exact absurd h3 (by simp)
    · intro h gs2 h2
      rw [hok] at h2
      obtain ⟨h3, h4⟩ := Prod.mk.injEq .. ▸ h2
      obtain rfl := Except.ok.inj h3
      refine ⟨hfresh gs.nextId (le_refl _), ⟨gs.nextAsset, gs.nextRef⟩, ?_⟩
      rw [← h4]

/-- Witness for C7: the freshness bound holds in the initial state, and the
triangle build there returns a handle with id 1 and registers it. -/
theorem builder_atomicity_witness :
    (∀ n, initState.nextId ≤ n → initState.model_handles n = none) ∧
    ((ModelBuilder.build envTrivial bTriangle initState).2.model_handles 1
        ≠ none) :=
  ⟨fun _ _ => rfl,
   by
    have h := (builder_atomicity envTrivial bTriangle initState
      (fun _ _ => rfl)).2 ⟨1, 0⟩
      (ModelBuilder.build envTrivial bTriangle initState).2 rfl
    obtain ⟨-, entry, hentry⟩ := h
    rw [hentry]
    simp [mapInsert]⟩

/-- Claim C10: a successful build always yields an asset with at least one
group (a dummy group is inserted when the parsed source has no parts), and
the data cell of the new handle starts with exactly one default group
transform per asset group — in particular a non-empty groups vector. -/
theorem built_model_has_group (env : Env) (b : ModelBuilder) (gs : GameState)
    (h : ModelHandle) (gs2 : GameState)
    (hok : ModelBuilder.build env b gs = (.ok h, gs2)) :
    ∃ e m c, gs2.model_handles h.id = some e ∧
      gs2.assetStore e.model = some m ∧ 1 ≤ m.groups.length ∧
      gs2.dataStore e.data = some c ∧
      c.value.groups.length = m.groups.length ∧ c.value.groups ≠ [] := by
  rcases build_result env b gs with ⟨e, he⟩ | ⟨model, hbr, hnv, hlen⟩
  · rw [he] at hok
    obtain ⟨h3, -⟩ := Prod.mk.injEq .. ▸ hok
    exact absurd h3 (by simp)
  · rw [hbr] at hok
    obtain ⟨h3, h4⟩ := Prod.mk.injEq .. ▸ hok
    obtain rfl := Except.ok.inj h3
    refine ⟨⟨gs.nextAsset, gs.nextRef⟩,
      model,
      ⟨LockState.unlocked,
       ⟨b.position, ⟨b.rotation.x, b.rotation.y, b.rotation.z⟩, b.scale,
        List.replicate model.groups.length ModelDataGroup.default⟩⟩,
      ?_, ?_, hlen, ?_, ?_, ?_⟩
    · rw [← h4]; exact mapInsert_same ..
    · rw [← h4]; exact mapInsert_same ..
    · rw [← h4]; exact mapInsert_same ..
    · simp
    · simp only [ne_eq, ← List.length_eq_zero]
      simp only [List.length_replicate]
      omega

/-- Witness for C10: the triangle build succeeds from the initial state. -/
theorem built_model_has_group_witness :
    ∃ h gs2, ModelBuilder.build envTrivial bTriangle initState = (.ok h, gs2) ∧
      ∃ e m c, gs2.model_handles h.id = some e ∧
        gs2.assetStore e.model = some m ∧ 1 ≤ m.groups.length ∧
        gs2.dataStore e.data = some c ∧
        c.value.groups.length = m.groups.length ∧ c.value.groups ≠ [] :=
  ⟨_, _, rfl, built_model_has_group envTrivial bTriangle initState _ _ rfl⟩

/-- Claim C5: applying a `NewModel` message whose `old_id` is not a
registry key panics (the `HashMap` index operation; `none` here); when the
old entry is present the apply succeeds and inserts the new entry, pairing
the old asset with the new data cell. -/
theorem apply_missing_entry (gs : GameState) (old_id new_id data : ℕ) :
    (gs.model_handles old_id = none →
      (UpdateMessage.NewModel old_id new_id data).apply gs = none) ∧
    (∀ e, gs.model_handles old_id = some e →
      (UpdateMessage.NewModel old_id new_id data).apply gs =
        some { gs with
                 model_handles := mapInsert gs.model_handles new_id
                   (e.with_new_data data) }) := by
  constructor
  · intro h
    simp [UpdateMessage.apply, applyReg, h]
  · intro e h
    simp [UpdateMessage.apply, applyReg, h]

/-- Witness for C5: in the initial state the registry is empty, so applying
a clone message panics; after registering an entry at key 1 the same apply
succeeds. -/
theorem apply_missing_entry_witness :
    ((UpdateMessage.NewModel 1 2 0).apply initState = none) ∧
    ((UpdateMessage.NewModel 1 2 0).apply
        { initState with
            model_handles := mapInsert initState.model_handles 1 ⟨0, 0⟩ } ≠
      none) := by
  constructor
  · exact (apply_missing_entry initState 1 2 0).1 rfl
  · rw [(apply_missing_entry
      { initState with
          model_handles := mapInsert initState.model_handles 1 ⟨0, 0⟩ }
      1 2 0).2 ⟨0, 0⟩ rfl]
    simp

/-- Claim C8: `modify` acquires the write lock, runs the callback on the
guarded data, releases the lock on every exit path — normal return or a
panicking callback (modelled by `none`) — and returns exactly the result of
the callback; the mutation is immediately visible to a subsequent read
through the handle or through a registry entry sharing the cell, with the
channel untouched (no drain involved). -/
theorem modify_scoped :
    (∀ (α : Type) (cell : DataCell) (cb : ModelData → Option (ModelData × α)),
      (cell.modify cb).1.lock = LockState.unlocked ∧
      (∀ d t, cb cell.value = some (d, t) →
        cell.modify cb = (⟨LockState.unlocked, d⟩, some t)) ∧
      (cb cell.value = none →
        cell.modify cb = (⟨LockState.unlocked, cell.value⟩, none))) ∧
    (∀ (gs : GameState) (h : ModelHandle) (cell : DataCell)
        (f : ModelData → ModelData),
      gs.dataStore h.data = some cell →
      ∃ gs2, ModelHandle.modify gs h (fun d => some (f d, ())) =
          some (gs2, some ()) ∧
        gs2.queue = gs.queue ∧ gs2.model_handles = gs.model_handles ∧
        ModelHandle.read gs2 h (fun d => d) = some (f cell.value) ∧
        (∀ n e, gs2.model_handles n = some e → e.data = h.data →
          ModelRef.readData gs2 e = some (f cell.value))) := by
  constructor
  · intro α cell cb
    refine ⟨?_, ?_, ?_⟩
    · unfold DataCell.modify
      cases hcb : cb cell.value with
      | none => simp [hcb]
      | some p => simp [hcb]
    · intro d t hcb
      unfold DataCell.modify
      simp [hcb]
    · intro hcb
      unfold DataCell.modify
      simp [hcb]
  · intro gs h cell f hcell
    refine ⟨{ gs with
        dataStore := mapInsert gs.dataStore h.data
          ⟨LockState.unlocked, f cell.value⟩ }, ?_, rfl, rfl, ?_, ?_⟩
    · unfold ModelHandle.modify DataCell.modify
      rw [hcell]
      rfl
    · unfold ModelHandle.read
      rw [show ({ gs with
          dataStore := mapInsert gs.dataStore h.data
            ⟨LockState.unlocked, f cell.value⟩ } : GameState).dataStore h.data =
          some ⟨LockState.unlocked, f cell.value⟩ from mapInsert_same ..]
      rfl
    · intro n e hn hdata
      unfold ModelRef.readData
      rw [show ({ gs with
          dataStore := mapInsert gs.dataStore h.data
            ⟨LockState.unlocked, f cell.value⟩ } : GameState).dataStore e.data =
          some ⟨LockState.unlocked, f cell.value⟩ from hdata ▸ mapInsert_same ..]
      rfl

/-- Witness for C8: a concrete cell and a concrete state.  The panicking
callback releases the lock, the normal callback returns its result, and a
mutation through the handle is visible through the shared reference. -/
theorem modify_scoped_witness :
    (((⟨LockState.unlocked, ⟨Vector3.zero, Euler.zero, 1, []⟩⟩ :
        DataCell).modify (fun _ => (none : Option (ModelData × Unit)))).1.lock =
      LockState.unlocked) ∧
    (({ initState with
          dataStore := mapInsert initState.dataStore 0
            ⟨LockState.unlocked, ⟨Vector3.zero, Euler.zero, 1, []⟩⟩ } :
        GameState).dataStore (0 : ℕ) =
      some ⟨LockState.unlocked, ⟨Vector3.zero, Euler.zero, 1, []⟩⟩) ∧
    (∃ gs2, ModelHandle.modify
        { initState with
            dataStore := mapInsert initState.dataStore 0
              ⟨LockState.unlocked, ⟨Vector3.zero, Euler.zero, 1, []⟩⟩ }
        ⟨1, 0⟩ (fun d => some ({ d with scale := 0 }, ())) =
        some (gs2, some ())) := by
  refine ⟨(modify_scoped.1 Unit _ _).1, rfl, ?_⟩
  obtain ⟨gs2, hg, -⟩ := modify_scoped.2
    { initState with
        dataStore := mapInsert initState.dataStore 0
          ⟨LockState.unlocked, ⟨Vector3.zero, Euler.zero, 1, []⟩⟩ }
    ⟨1, 0⟩ ⟨LockState.unlocked, ⟨Vector3.zero, Euler.zero, 1, []⟩⟩
    (fun d => { d with scale := 0 }) rfl
  exact ⟨gs2, hg⟩

/-- One loop step only appends to the applied-message log. -/
theorem execStep_applied (st : LoopState) (s : LoopStep) (st2 : LoopState)
    (h : execStep st s = some st2) : ∃ l, st2.applied = st.applied ++ l := by
  cases s with
  | update ops =>
    simp only [execStep] at h
    cases hs : stepAll st.gs ops with
    | none => rw [hs] at h; simp at h
    | some gs1 =>
      rw [hs] at h
      simp only [Option.some_bind] at h
      cases hd : drainReg gs1.queue gs1.model_handles with
      | none => rw [hd] at h; simp at h
      | some R =>
        rw [hd] at h
        simp only [Option.map_some'] at h
        obtain rfl := Option.some.inj h
        exact ⟨gs1.queue, rfl⟩
  | event ops =>
    simp only [execStep] at h
    cases hs : stepAll st.gs ops with
    | none => rw [hs] at h; simp at h
    | some gs1 =>
      rw [hs] at h
      simp only [Option.map_some'] at h
      obtain rfl := Option.some.inj h
      exact ⟨[], (List.append_nil _).symm⟩
  | render =>
    obtain rfl := Option.some.inj h
    exact ⟨[], (List.append_nil _).symm⟩

/-- A sequence of loop steps only appends to the applied-message log. -/
theorem execAll_applied (st : LoopState) (trace : List LoopStep)
    (st2 : LoopState) (h : execAll st trace = some st2) :
    ∃ l, st2.applied = st.applied ++ l := by
  induction trace generalizing st with
  | nil =>
    obtain rfl := Option.some.inj h
    exact ⟨[], (List.append_nil _).symm⟩
  | cons s rest ih =>
    simp only [execAll] at h
    cases hs : execStep st s with
    | none => rw [hs] at h; simp at h
    | some st1 =>
      rw [hs] at h
      simp only [Option.some_bind] at h
      obtain ⟨l1, hl1⟩ := execStep_applied st s st1 hs
      obtain ⟨l2, hl2⟩ := ih st1 h
      exact ⟨l1 ++ l2, by rw [hl2, hl1, List.append_assoc]⟩

/-- Claim C2: an update step of the frame loop first runs the game update
(producing `gs1`, whose queue holds every message emitted during or before
that update step) and then drains the channel completely; afterwards the
channel is empty and every one of those messages has been applied to the
registry, and it stays applied through any further loop steps — so a later
render pass reads a registry consistent with all of them. -/
theorem drain_before_render (st : LoopState) (ops : List Op)
    (gs1 : GameState) (st1 : LoopState) (trace : List LoopStep)
    (st2 : LoopState)
    (hstep : stepAll st.gs ops = some gs1)
    (hupd : execStep st (LoopStep.update ops) = some st1)
    (htrace : execAll st1 trace = some st2) :
    st1.gs.queue = [] ∧ ∀ m ∈ gs1.queue, m ∈ st2.applied := by
  simp only [execStep, hstep, Option.some_bind] at hupd
  cases hd : drainReg gs1.queue gs1.model_handles with
  | none => rw [hd] at hupd; simp at hupd
  | some R =>
    rw [hd] at hupd
    simp only [Option.map_some'] at hupd
    obtain rfl := Option.some.inj hupd
    refine ⟨rfl, fun m hm => ?_⟩
    obtain ⟨l, hl⟩ := execAll_applied _ trace st2 htrace
    rw [hl]
    simp only [List.mem_append]
    exact .inl (.inr hm)

/-- Witness for C2: from the empty loop state, one update step that builds
a triangle model and clones it, followed by a render step.  The clone
message is in the applied log when the render happens and the channel is
empty. -/
theorem drain_before_render_witness :
    ∃ gs1 st1 st2,
      stepAll (LoopState.mk initState []).gs
          [Op.construct envTrivial bTriangle, Op.cloneOp 1] = some gs1 ∧
      execStep (LoopState.mk initState [])
          (LoopStep.update [Op.construct envTrivial bTriangle, Op.cloneOp 1]) =
        some st1 ∧
      execAll st1 [LoopStep.render] = some st2 ∧
      (st1.gs.queue = [] ∧ ∀ m ∈ gs1.queue, m ∈ st2.applied) :=
  ⟨_, _, _, rfl, rfl, rfl,
    drain_before_render (LoopState.mk initState [])
      [Op.construct envTrivial bTriangle, Op.cloneOp 1] _ _
      [LoopStep.render] _ rfl rfl rfl⟩

/-- `mapInsert` definedness: the inserted key and the old keys. -/
theorem mapInsert_isSome {α : Type} (m : ℕ → Option α) (k : ℕ) (v : α)
    (n : ℕ) : ((mapInsert m k v) n).isSome ↔ n = k ∨ (m n).isSome := by
  by_cases h : n = k <;> simp [mapInsert, h]

/-- `mapRemove` definedness. -/
theorem mapRemove_isSome {α : Type} (m : ℕ → Option α) (k : ℕ) (n : ℕ) :
    ((mapRemove m k) n).isSome ↔ n ≠ k ∧ (m n).isSome := by
  by_cases h : n = k <;> simp [mapRemove, h]

/-- Appending one fresh element keeps a list duplicate-free. -/
theorem nodup_append_fresh {α : Type} (l : List α) (a : α) (h : l.Nodup)
    (ha : a ∉ l) : (l ++ [a]).Nodup := by
  rw [List.nodup_append]
  exact ⟨h, List.nodup_singleton a, fun x hx hxa => ha ((List.mem_singleton.mp hxa) ▸ hx)⟩

/-- Message well-formedness is monotone in the counters, provided the data
store keeps the old cells allocated. -/
theorem msgWF_mono (gs gs2 : GameState) (m : UpdateMessage)
    (hid : gs.nextId ≤ gs2.nextId) (href : gs.nextRef ≤ gs2.nextRef)
    (hds : ∀ d, d < gs.nextRef → (gs.dataStore d).isSome →
      (gs2.dataStore d).isSome)
    (h : msgWF gs m) : msgWF gs2 m := by
  cases m with
  | NewModel o n d =>
    obtain ⟨h1, h2, h3, h4⟩ := h
    exact ⟨lt_of_lt_of_le h1 hid, lt_of_lt_of_le h2 hid,
      lt_of_lt_of_le h3 href, hds d h3 h4⟩
  | ModelDropped i => exact lt_of_lt_of_le h hid

/-- The invariant is preserved by a construct operation. -/
theorem inv_construct (gs : GameState) (env : Env) (b : ModelBuilder)
    (hinv : Inv gs) (gs2 : GameState)
    (h : step gs (Op.construct env b) = some gs2) : Inv gs2 := by
  rcases build_result env b gs with ⟨e, he⟩ | ⟨model, hok, hnv, hlen⟩
  · simp only [step, he] at h
    obtain rfl := Option.some.inj h
    exact hinv
  · simp only [step, hok] at h
    obtain rfl := Option.some.inj h
    obtain ⟨nodup_id, nodup_ref, live_id, live_ref, live_st, reg_hi, reg_wf,
      store_hi, asset_hi, locks, msgs, R0, hdr, hkeys, hlive, hbounds⟩ := hinv
    have hid_notin : (⟨gs.nextId, gs.nextRef⟩ : ModelHandle) ∉ gs.live := by
      intro hmem
      exact absurd (live_id _ hmem) (by simp)
    have hid_notin2 : gs.nextId ∉ gs.live.map ModelHandle.id := by
      intro hmem
      obtain ⟨h2, hh2, hh2id⟩ := List.mem_map.mp hmem
      exact absurd (hh2id ▸ live_id _ hh2) (by simp)
    have href_notin2 : gs.nextRef ∉ gs.live.map ModelHandle.data := by
      intro hmem
      obtain ⟨h2, hh2, hh2d⟩ := List.mem_map.mp hmem
      exact absurd (hh2d ▸ live_ref _ hh2) (by simp)
    refine ⟨?_, ?_, ?_, ?_, ?_, ?_, ?_, ?_, ?_, ?_, ?_, ?_⟩ <;> dsimp only
    · simpa using nodup_append_fresh _ _ nodup_id hid_notin2
    · simpa using nodup_append_fresh _ _ nodup_ref href_notin2
    · intro h2 hmem
      rcases List.mem_append.mp hmem with hmem | hmem
      · exact lt_trans (live_id _ hmem) (Nat.lt_succ_self _)
      · obtain rfl := List.mem_singleton.mp hmem
        exact Nat.lt_succ_self _
    · intro h2 hmem
      rcases List.mem_append.mp hmem with hmem | hmem
      · exact lt_trans (live_ref _ hmem) (Nat.lt_succ_self _)
      · obtain rfl := List.mem_singleton.mp hmem
        exact Nat.lt_succ_self _
    · intro h2 hmem
      rcases List.mem_append.mp hmem with hmem | hmem
      · rw [mapInsert_isSome]
        exact .inr (live_st _ hmem)
      · obtain rfl := List.mem_singleton.mp hmem
        rw [mapInsert_isSome]
        exact .inl rfl
    · intro n hn
      rw [mapInsert_ne _ _ _ _ (by omega)]
      exact reg_hi n (by omega)
    · intro n e hne
      by_cases hcase : n = gs.nextId
      · subst hcase
        rw [mapInsert_same] at hne
        obtain rfl := Option.some.inj hne
        refine ⟨Nat.lt_succ_self _, Nat.lt_succ_self _, ?_, ?_⟩
        · rw [mapInsert_isSome]; exact .inl rfl
        · rw [mapInsert_isSome]; exact .inl rfl
      · rw [mapInsert_ne _ _ _ _ hcase] at hne
        obtain ⟨hd, hm, hds, has⟩ := reg_wf n e hne
        refine ⟨lt_trans hd (Nat.lt_succ_self _),
          lt_trans hm (Nat.lt_succ_self _), ?_, ?_⟩
        · rw [mapInsert_isSome]; exact .inr hds
        · rw [mapInsert_isSome]; exact .inr has
    · intro r hr
      rw [mapInsert_ne _ _ _ _ (by omega)]
      exact store_hi r (by omega)
    · intro a ha
      rw [mapInsert_ne _ _ _ _ (by omega)]
      exact asset_hi a (by omega)
    · intro r c hc
      by_cases hcase : r = gs.nextRef
      · subst hcase
        rw [mapInsert_same] at hc
        obtain rfl := Option.some.inj hc
        rfl
      · rw [mapInsert_ne _ _ _ _ hcase] at hc
        exact locks r c hc
    · intro m hm
      refine msgWF_mono gs _ m (Nat.le_succ _) (Nat.le_succ _) ?_ (msgs m hm)
      intro d hd hds
      rw [mapInsert_isSome]
      exact .inr hds
    · refine ⟨mapInsert R0 gs.nextId ⟨gs.nextAsset, gs.nextRef⟩, ?_, ?_, ?_, ?_⟩
      · rw [drainReg_mapInsert _ _ _ _ ?_, hdr]
        · rfl
        · intro m hm
          have := msgs m hm
          cases m with
          | NewModel o n d =>
            obtain ⟨h1, h2, -, -⟩ := this
            exact ⟨by omega, by omega⟩
          | ModelDropped i =>
            have h1 : i < gs.nextId := this
            exact (by omega : i ≠ gs.nextId)
      · intro n
        by_cases hcase : n = gs.nextId
        · subst hcase
          simp [mapInsert_same]
        · rw [mapInsert_isSome]
          simp only [hcase, false_or]
          rw [hkeys n]
          simp [hcase]
      · intro h2 hmem
        rcases List.mem_append.mp hmem with hmem | hmem
        · obtain ⟨e, he2, hed⟩ := hlive h2 hmem
          refine ⟨e, ?_, hed⟩
          rw [mapInsert_ne _ _ _ _ (by have := live_id _ hmem; omega)]
          exact he2
        · obtain rfl := List.mem_singleton.mp hmem
          exact ⟨⟨gs.nextAsset, gs.nextRef⟩, mapInsert_same .., rfl⟩
      · intro n e hne
        by_cases hcase : n = gs.nextId
        · subst hcase
          rw [mapInsert_same] at hne
          obtain rfl := Option.some.inj hne
          refine ⟨Nat.lt_succ_self _, Nat.lt_succ_self _, ?_, ?_⟩
          · rw [mapInsert_isSome]; exact .inl rfl
          · rw [mapInsert_isSome]; exact .inl rfl
        · rw [mapInsert_ne _ _ _ _ hcase] at hne
          obtain ⟨hd, hm, hds, has⟩ := hbounds n e hne
          refine ⟨lt_trans hd (Nat.lt_succ_self _),
            lt_trans hm (Nat.lt_succ_self _), ?_, ?_⟩
          · rw [mapInsert_isSome]; exact .inr hds
          · rw [mapInsert_isSome]; exact .inr has

/-- Characterization of a clone step on a live handle with an allocated
cell. -/
theorem step_clone_char (gs : GameState) (i : ℕ) (h1 : ModelHandle)
    (cell : DataCell)
    (hfind : gs.live.find? (fun h2 => h2.id == i) = some h1)
    (hcell : gs.dataStore h1.data = some cell) :
    step gs (Op.cloneOp i) = some
      { gs with
          nextId := gs.nextId + 1, nextRef := gs.nextRef + 1,
          dataStore := mapInsert gs.dataStore gs.nextRef
            ⟨LockState.unlocked, cell.value⟩,
          queue := gs.queue ++ [UpdateMessage.NewModel h1.id gs.nextId gs.nextRef],
          live := gs.live ++ [⟨gs.nextId, gs.nextRef⟩] } := by
  simp only [step, hfind, Option.some_bind, ModelHandle.clone, hcell,
    Option.map_some']

/-- Characterization of a drop step on a live handle. -/
theorem step_drop_char (gs : GameState) (i : ℕ) (h1 : ModelHandle)
    (hfind : gs.live.find? (fun h2 => h2.id == i) = some h1) :
    step gs (Op.dropOp i) = some
      { gs with
          queue := gs.queue ++ [UpdateMessage.ModelDropped h1.id],
          live := gs.live.filter fun h2 => h2.id != i } := by
  simp only [step, hfind, Option.map_some', ModelHandle.dropMsg]

/-- Characterization of a modify step on a live handle with an allocated
cell. -/
theorem step_modify_char (gs : GameState) (i : ℕ) (cb : ModelData → ModelData)
    (h1 : ModelHandle) (cell : DataCell)
    (hfind : gs.live.find? (fun h2 => h2.id == i) = some h1)
    (hcell : gs.dataStore h1.data = some cell) :
    step gs (Op.modifyOp i cb) = some
      { gs with
          dataStore := mapInsert gs.dataStore h1.data
            ⟨LockState.unlocked, cb cell.value⟩ } := by
  simp only [step, hfind, Option.some_bind, ModelHandle.modify, hcell,
    Option.map_some', DataCell.modify]

/-- The invariant is preserved by a clone operation. -/
theorem inv_clone (gs : GameState) (i : ℕ) (hinv : Inv gs) (gs2 : GameState)
    (h : step gs (Op.cloneOp i) = some gs2) : Inv gs2 := by
  obtain ⟨nodup_id, nodup_ref, live_id, live_ref, live_st, reg_hi, reg_wf,
    store_hi, asset_hi, locks, msgs, R0, hdr, hkeys, hlive, hbounds⟩ := hinv
  cases hfind : gs.live.find? (fun h2 => h2.id == i) with
  | none => simp [step, hfind] at h
  | some h1 =>
    have hmem : h1 ∈ gs.live := List.mem_of_find?_eq_some hfind
    cases hcell : gs.dataStore h1.data with
    | none => exact absurd (live_st h1 hmem) (by rw [hcell]; simp)
    | some cell =>
      rw [step_clone_char gs i h1 cell hfind hcell] at h
      obtain rfl := Option.some.inj h
      have hid_notin2 : gs.nextId ∉ gs.live.map ModelHandle.id := by
        intro hmem2
        obtain ⟨h2, hh2, hh2id⟩ := List.mem_map.mp hmem2
        exact absurd (hh2id ▸ live_id _ hh2) (by simp)
      have href_notin2 : gs.nextRef ∉ gs.live.map ModelHandle.data := by
        intro hmem2
        obtain ⟨h2, hh2, hh2d⟩ := List.mem_map.mp hmem2
        exact absurd (hh2d ▸ live_ref _ hh2) (by simp)
      refine ⟨?_, ?_, ?_, ?_, ?_, ?_, ?_, ?_, ?_, ?_, ?_, ?_⟩ <;> dsimp only
      · simpa using nodup_append_fresh _ _ nodup_id hid_notin2
      · simpa using nodup_append_fresh _ _ nodup_ref href_notin2
      · intro h2 hmem2
        rcases List.mem_append.mp hmem2 with hmem2 | hmem2
        · exact lt_trans (live_id _ hmem2) (Nat.lt_succ_self _)
        · obtain rfl := List.mem_singleton.mp hmem2
          exact Nat.lt_succ_self _
      · intro h2 hmem2
        rcases List.mem_append.mp hmem2 with hmem2 | hmem2
        · exact lt_trans (live_ref _ hmem2) (Nat.lt_succ_self _)
        · obtain rfl := List.mem_singleton.mp hmem2
          exact Nat.lt_succ_self _
      · intro h2 hmem2
        rcases List.mem_append.mp hmem2 with hmem2 | hmem2
        · rw [mapInsert_isSome]
          exact .inr (live_st _ hmem2)
        · obtain rfl := List.mem_singleton.mp hmem2
          rw [mapInsert_isSome]
          exact .inl rfl
      · intro n hn
        exact reg_hi n (by omega)
      · intro n e hne
        obtain ⟨hd, hm, hds, has⟩ := reg_wf n e hne
        refine ⟨lt_trans hd (Nat.lt_succ_self _), hm, ?_, has⟩
        rw [mapInsert_isSome]
        exact .inr hds
      · intro r hr
        rw [mapInsert_ne _ _ _ _ (by omega)]
        exact store_hi r (by omega)
      · intro a ha
        exact asset_hi a ha
      · intro r c hc
        by_cases hcase : r = gs.nextRef
        · subst hcase
          rw [mapInsert_same] at hc
          obtain rfl := Option.some.inj hc
          rfl
        · rw [mapInsert_ne _ _ _ _ hcase] at hc
          exact locks r c hc
      · intro m hm
        rcases List.mem_append.mp hm with hm | hm
        · refine msgWF_mono gs _ m (Nat.le_succ _) (Nat.le_succ _) ?_ (msgs m hm)
          intro d hd hds
          rw [mapInsert_isSome]
          exact .inr hds
        · obtain rfl := List.mem_singleton.mp hm
          refine ⟨?_, ?_, ?_, ?_⟩
          · show h1.id < gs.nextId + 1
            exact lt_trans (live_id h1 hmem) (Nat.lt_succ_self _)
          · exact Nat.lt_succ_self _
          · exact Nat.lt_succ_self _
          · rw [mapInsert_isSome]
            exact .inl rfl
      · obtain ⟨e0, he0, he0d⟩ := hlive h1 hmem
        refine ⟨mapInsert R0 gs.nextId (e0.with_new_data gs.nextRef), ?_, ?_, ?_, ?_⟩
        · rw [drainReg_append, hdr]
          simp only [Option.some_bind, drainReg, applyReg, he0,
            Option.map_some', Option.some_bind]
        · intro n
          by_cases hcase : n = gs.nextId
          · subst hcase
            simp [mapInsert_same]
          · rw [mapInsert_isSome]
            simp only [hcase, false_or]
            rw [hkeys n]
            simp [hcase]
        · intro h2 hmem2
          rcases List.mem_append.mp hmem2 with hmem2 | hmem2
          · obtain ⟨e, he2, hed⟩ := hlive h2 hmem2
            refine ⟨e, ?_, hed⟩
            rw [mapInsert_ne _ _ _ _ (by have := live_id _ hmem2; omega)]
            exact he2
          · obtain rfl := List.mem_singleton.mp hmem2
            exact ⟨e0.with_new_data gs.nextRef, mapInsert_same .., rfl⟩
        · intro n e hne
          by_cases hcase : n = gs.nextId
          · subst hcase
            rw [mapInsert_same] at hne
            obtain rfl := Option.some.inj hne
            obtain ⟨-, hm1, -, has1⟩ := hbounds h1.id e0 he0
            refine ⟨Nat.lt_succ_self _, hm1, ?_, has1⟩
            rw [mapInsert_isSome]
            exact .inl rfl
          · rw [mapInsert_ne _ _ _ _ hcase] at hne
            obtain ⟨hd, hm, hds, has⟩ := hbounds n e hne
            refine ⟨lt_trans hd (Nat.lt_succ_self _), hm, ?_, has⟩
            rw [mapInsert_isSome]
            exact .inr hds

/-- The invariant is preserved by a drop operation. -/
theorem inv_drop (gs : GameState) (i : ℕ) (hinv : Inv gs) (gs2 : GameState)
    (h : step gs (Op.dropOp i) = some gs2) : Inv gs2 := by
  obtain ⟨nodup_id, nodup_ref, live_id, live_ref, live_st, reg_hi, reg_wf,
    store_hi, asset_hi, locks, msgs, R0, hdr, hkeys, hlive, hbounds⟩ := hinv
  cases hfind : gs.live.find? (fun h2 => h2.id == i) with
  | none => simp [step, hfind] at h
  | some h1 =>
    have hmem : h1 ∈ gs.live := List.mem_of_find?_eq_some hfind
    have hid : h1.id = i := by simpa using List.find?_some hfind
    rw [step_drop_char gs i h1 hfind] at h
    obtain rfl := Option.some.inj h
    refine ⟨?_, ?_, ?_, ?_, ?_, ?_, ?_, ?_, ?_, ?_, ?_, ?_⟩ <;> dsimp only
    · exact List.Sublist.nodup
        ((List.filter_sublist gs.live).map ModelHandle.id) nodup_id
    · exact List.Sublist.nodup
        ((List.filter_sublist gs.live).map ModelHandle.data) nodup_ref
    · intro h2 hmem2
      exact live_id h2 (List.mem_of_mem_filter hmem2)
    · intro h2 hmem2
      exact live_ref h2 (List.mem_of_mem_filter hmem2)
    · intro h2 hmem2
      exact live_st h2 (List.mem_of_mem_filter hmem2)
    · exact reg_hi
    · exact reg_wf
    · exact store_hi
    · exact asset_hi
    · exact locks
    · intro m hm
      rcases List.mem_append.mp hm with hm | hm
      · exact msgs m hm
      · obtain rfl := List.mem_singleton.mp hm
        show h1.id < gs.nextId
        exact live_id h1 hmem
    · refine ⟨mapRemove R0 h1.id, ?_, ?_, ?_, ?_⟩
      · rw [drainReg_append, hdr]
        simp only [Option.some_bind, drainReg, applyReg, Option.some_bind]
      · intro n
        rw [mapRemove_isSome]
        constructor
        · rintro ⟨hne, hsome⟩
          obtain ⟨h2, hmem2, hid2⟩ := List.mem_map.mp ((hkeys n).mp hsome)
          refine List.mem_map.mpr ⟨h2, List.mem_filter.mpr ⟨hmem2, ?_⟩, hid2⟩
          simp only [bne_iff_ne, ne_eq]
          rw [hid2, ← hid]
          exact fun hcon => hne hcon
        · intro hmem2
          obtain ⟨h2, hf, hid2⟩ := List.mem_map.mp hmem2
          obtain ⟨hmem2b, hpred⟩ := List.mem_filter.mp hf
          have hne : h2.id ≠ i := by simpa using hpred
          refine ⟨?_, (hkeys n).mpr (List.mem_map.mpr ⟨h2, hmem2b, hid2⟩)⟩
          rw [← hid2, hid]
          exact hne
      · intro h2 hmem2
        obtain ⟨hmem2b, hpred⟩ := List.mem_filter.mp hmem2
        have hne : h2.id ≠ i := by simpa using hpred
        obtain ⟨e, he2, hed⟩ := hlive h2 hmem2b
        refine ⟨e, ?_, hed⟩
        rw [mapRemove_ne _ _ _ (by rw [hid]; exact hne)]
        exact he2
      · intro n e hne
        by_cases hcase : n = h1.id
        · subst hcase
          rw [mapRemove_same] at hne
          cases hne
        · rw [mapRemove_ne _ _ _ hcase] at hne
          exact hbounds n e hne

/-- The invariant is preserved by a modify operation. -/
theorem inv_modify (gs : GameState) (i : ℕ) (cb : ModelData → ModelData)
    (hinv : Inv gs) (gs2 : GameState)
    (h : step gs (Op.modifyOp i cb) = some gs2) : Inv gs2 := by
  obtain ⟨nodup_id, nodup_ref, live_id, live_ref, live_st, reg_hi, reg_wf,
    store_hi, asset_hi, locks, msgs, R0, hdr, hkeys, hlive, hbounds⟩ := hinv
  cases hfind : gs.live.find? (fun h2 => h2.id == i) with
  | none => simp [step, hfind] at h
  | some h1 =>
    have hmem : h1 ∈ gs.live := List.mem_of_find?_eq_some hfind
    cases hcell : gs.dataStore h1.data with
    | none => exact absurd (live_st h1 hmem) (by rw [hcell]; simp)
    | some cell =>
      rw [step_modify_char gs i cb h1 cell hfind hcell] at h
      obtain rfl := Option.some.inj h
      refine ⟨nodup_id, nodup_ref, live_id, live_ref, ?_, reg_hi, ?_, ?_,
        asset_hi, ?_, ?_, ?_⟩ <;> dsimp only
      · intro h2 hmem2
        rw [mapInsert_isSome]
        exact .inr (live_st h2 hmem2)
      · intro n e hne
        obtain ⟨hd, hm, hds, has⟩ := reg_wf n e hne
        refine ⟨hd, hm, ?_, has⟩
        rw [mapInsert_isSome]
        exact .inr hds
      · intro r hr
        rw [mapInsert_ne _ _ _ _ (by have := live_ref h1 hmem; omega)]
        exact store_hi r hr
      · intro r c hc
        by_cases hcase : r = h1.data
        · subst hcase
          rw [mapInsert_same] at hc
          obtain rfl := Option.some.inj hc
          rfl
        · rw [mapInsert_ne _ _ _ _ hcase] at hc
          exact locks r c hc
      · intro m hm
        refine msgWF_mono gs _ m (le_refl _) (le_refl _) ?_ (msgs m hm)
        intro d hd hds
        rw [mapInsert_isSome]
        exact .inr hds
      · refine ⟨R0, hdr, hkeys, hlive, ?_⟩
        intro n e hne
        obtain ⟨hd, hm, hds, has⟩ := hbounds n e hne
        refine ⟨hd, hm, ?_, has⟩
        rw [mapInsert_isSome]
        exact .inr hds

/-- The invariant is preserved by every user-code operation. -/
theorem inv_step (gs : GameState) (op : Op) (gs2 : GameState) (hinv : Inv gs)
    (h : step gs op = some gs2) : Inv gs2 := by
  cases op with
  | construct env b => exact inv_construct gs env b hinv gs2 h
  | cloneOp i => exact inv_clone gs i hinv gs2 h
  | dropOp i => exact inv_drop gs i hinv gs2 h
  | modifyOp i cb => exact inv_modify gs i cb hinv gs2 h

/-- The invariant holds initially. -/
theorem inv_initState : Inv initState := by
  refine ⟨?_, ?_, ?_, ?_, ?_, ?_, ?_, ?_, ?_, ?_, ?_, ?_⟩
  · exact List.nodup_nil
  · exact List.nodup_nil
  · intro h2 hmem; cases hmem
  · intro h2 hmem; cases hmem
  · intro h2 hmem; cases hmem
  · intro n hn; rfl
  · intro n e hne; cases hne
  · intro r hr; rfl
  · intro a ha; rfl
  · intro r c hc; cases hc
  · intro m hm; cases hm
  · refine ⟨initState.model_handles, rfl, ?_, ?_, ?_⟩
    · intro n; simp [initState]
    · intro h2 hmem; cases hmem
    · intro n e hne; cases hne

/-- The invariant propagates along any performable operation sequence. -/
theorem inv_stepAll_aux (ops : List Op) (gs gs2 : GameState) (hinv : Inv gs)
    (h : stepAll gs ops = some gs2) : Inv gs2 := by
  induction ops generalizing gs with
  | nil =>
    obtain rfl := Option.some.inj h
    exact hinv
  | cons op rest ih =>
    simp only [stepAll] at h
    cases hs : step gs op with
    | none => rw [hs] at h; simp at h
    | some gs1 =>
      rw [hs] at h
      simp only [Option.some_bind] at h
      exact ih gs1 (inv_step gs op gs1 hinv hs) h

/-- Reachable states satisfy the invariant. -/
theorem inv_stepAll (ops : List Op) (gs2 : GameState)
    (h : stepAll initState ops = some gs2) : Inv gs2 :=
  inv_stepAll_aux ops initState gs2 inv_initState h

/-- Claim C1: for every performable finite sequence of handle operations
starting from the initial state, the full drain of the update channel
succeeds, and afterwards the registry keys are exactly the ids of the
handles still alive — no entry for a dropped handle, an entry for every
live one. -/
theorem registry_completeness (ops : List Op)
    (h : (stepAll initState ops).isSome = true) :
    ∃ gsd, ((stepAll initState ops).get h).drain = some gsd ∧
      ∀ n, (gsd.model_handles n).isSome = true ↔
        n ∈ ((stepAll initState ops).get h).live.map ModelHandle.id := by
  have hstep : stepAll initState ops = some ((stepAll initState ops).get h) :=
    (Option.some_get h).symm
  obtain ⟨-, -, -, -, -, -, -, -, -, -, -, R0, hdr, hkeys, -, -⟩ :=
    inv_stepAll ops _ hstep
  refine ⟨{ (stepAll initState ops).get h with model_handles := R0, queue := [] },
    ?_, ?_⟩
  · unfold GameState.drain
    rw [hdr]
    rfl
  · intro n
    exact hkeys n

/-- Witness for C1: construct a triangle model, clone it, drop the
original; the theorem applies with the performability hypothesis discharged
by computation. -/
theorem registry_completeness_witness :
    ∃ gsd, ((stepAll initState [Op.construct envTrivial bTriangle,
        Op.cloneOp 1, Op.dropOp 1]).get rfl).drain = some gsd ∧
      ∀ n, (gsd.model_handles n).isSome = true ↔
        n ∈ ((stepAll initState [Op.construct envTrivial bTriangle,
          Op.cloneOp 1, Op.dropOp 1]).get rfl).live.map ModelHandle.id :=
  registry_completeness [Op.construct envTrivial bTriangle,
    Op.cloneOp 1, Op.dropOp 1] rfl

/-- Claim C3: cloning the live handle `h1` produces the handle
`(nextId, nextRef)` with a fresh data cell snapshotting the current data of
`h1`; a later `modify` through either handle leaves the cell of the other
untouched; and after a drain both registry entries reference the identical
shared asset, each paired with the data cell of its own handle. -/
theorem clone_independence (gs : GameState) (hinv : Inv gs) (i : ℕ)
    (h1 : ModelHandle)
    (hfind : gs.live.find? (fun h2 => h2.id == i) = some h1)
    (gs2 : GameState) (hstep : step gs (Op.cloneOp i) = some gs2) :
    (⟨gs.nextId, gs.nextRef⟩ : ModelHandle) ∈ gs2.live ∧
    h1.data ≠ gs.nextRef ∧
    (∃ cell, gs.dataStore h1.data = some cell ∧
      gs2.dataStore gs.nextRef = some ⟨LockState.unlocked, cell.value⟩) ∧
    (∀ f gs3, step gs2 (Op.modifyOp h1.id f) = some gs3 →
      gs3.dataStore gs.nextRef = gs2.dataStore gs.nextRef) ∧
    (∀ f gs3, step gs2 (Op.modifyOp gs.nextId f) = some gs3 →
      gs3.dataStore h1.data = gs2.dataStore h1.data) ∧
    (∃ gsd, gs2.drain = some gsd ∧ ∃ e1 e2,
      gsd.model_handles h1.id = some e1 ∧
      gsd.model_handles gs.nextId = some e2 ∧
      e1.model = e2.model ∧ e1.data = h1.data ∧ e2.data = gs.nextRef) := by
  have hinv2 : Inv gs2 := inv_clone gs i hinv gs2 hstep
  obtain ⟨nodup_id, nodup_ref, live_id, live_ref, live_st, reg_hi, reg_wf,
    store_hi, asset_hi, locks, msgs, R0, hdr, hkeys, hlive, hbounds⟩ := hinv
  have hmem : h1 ∈ gs.live := List.mem_of_find?_eq_some hfind
  cases hcell : gs.dataStore h1.data with
  | none => exact absurd (live_st h1 hmem) (by rw [hcell]; simp)
  | some cell =>
    rw [step_clone_char gs i h1 cell hfind hcell] at hstep
    obtain rfl := Option.some.inj hstep
    obtain ⟨e0, he0, he0d⟩ := hlive h1 hmem
    refine ⟨by simp, by have := live_ref h1 hmem; omega,
      ⟨cell, rfl, ?_⟩, ?_, ?_, ?_⟩
    · show mapInsert gs.dataStore gs.nextRef
        ⟨LockState.unlocked, cell.value⟩ gs.nextRef = _
      exact mapInsert_same ..
    · intro f gs3 hstep3
      cases hfind2 : ((gs.live ++ [(⟨gs.nextId, gs.nextRef⟩ : ModelHandle)]).find?
          fun h2 => h2.id == h1.id) with
      | none => simp [step, hfind2] at hstep3
      | some hf =>
        have hmem2 : hf ∈ gs.live ++ [(⟨gs.nextId, gs.nextRef⟩ : ModelHandle)] :=
          List.mem_of_find?_eq_some hfind2
        have hfid : hf.id = h1.id := by simpa using List.find?_some hfind2
        have hfo : hf.data ≠ gs.nextRef := by
          rcases List.mem_append.mp hmem2 with hmem2 | hmem2
          · have := live_ref hf hmem2
            omega
          · obtain rfl := List.mem_singleton.mp hmem2
            have h3 := live_id h1 hmem
            have h4 : gs.nextId = h1.id := hfid
            omega
        cases hcell2 : (mapInsert gs.dataStore gs.nextRef
            ⟨LockState.unlocked, cell.value⟩) hf.data with
        | none => exact absurd (hinv2.live_store hf hmem2) (by
            show ((mapInsert gs.dataStore gs.nextRef
              ⟨LockState.unlocked, cell.value⟩) hf.data).isSome ≠ true
            rw [hcell2]
            simp)
        | some cell2 =>
          rw [step_modify_char _ h1.id f hf cell2 hfind2 hcell2] at hstep3
          obtain rfl := Option.some.inj hstep3
          show mapInsert _ hf.data _ gs.nextRef = _
          rw [mapInsert_ne _ _ _ _ (fun hcon => hfo hcon.symm)]
    · intro f gs3 hstep3
      cases hfind2 : ((gs.live ++ [(⟨gs.nextId, gs.nextRef⟩ : ModelHandle)]).find?
          fun h2 => h2.id == gs.nextId) with
      | none => simp [step, hfind2] at hstep3
      | some hf =>
        have hmem2 : hf ∈ gs.live ++ [(⟨gs.nextId, gs.nextRef⟩ : ModelHandle)] :=
          List.mem_of_find?_eq_some hfind2
        have hfid : hf.id = gs.nextId := by simpa using List.find?_some hfind2
        have hfo : hf.data ≠ h1.data := by
          rcases List.mem_append.mp hmem2 with hmem2 | hmem2
          · have := live_id hf hmem2
            omega
          · obtain rfl := List.mem_singleton.mp hmem2
            have h3 := live_ref h1 hmem
            show gs.nextRef ≠ h1.data
            omega
        cases hcell2 : (mapInsert gs.dataStore gs.nextRef
            ⟨LockState.unlocked, cell.value⟩) hf.data with
        | none => exact absurd (hinv2.live_store hf hmem2) (by
            show ((mapInsert gs.dataStore gs.nextRef
              ⟨LockState.unlocked, cell.value⟩) hf.data).isSome ≠ true
            rw [hcell2]
            simp)
        | some cell2 =>
          rw [step_modify_char _ gs.nextId f hf cell2 hfind2 hcell2] at hstep3
          obtain rfl := Option.some.inj hstep3
          show mapInsert _ hf.data _ h1.data = _
          rw [mapInsert_ne _ _ _ _ (fun hcon => hfo hcon.symm)]
    · have hdr2 : drainReg (gs.queue ++
          [UpdateMessage.NewModel h1.id gs.nextId gs.nextRef])
          gs.model_handles =
          some (mapInsert R0 gs.nextId (e0.with_new_data gs.nextRef)) := by
        rw [drainReg_append, hdr]
        simp only [Option.some_bind, drainReg, applyReg, he0,
          Option.map_some', Option.some_bind]
      refine
        ⟨{ model_handles := mapInsert R0 gs.nextId (e0.with_new_data gs.nextRef),
           queue := [],
           dataStore := mapInsert gs.dataStore gs.nextRef
               ⟨LockState.unlocked, cell.value⟩,
           assetStore := gs.assetStore,
           nextId := gs.nextId + 1,
           nextRef := gs.nextRef + 1,
           nextAsset := gs.nextAsset,
           live := gs.live ++ [⟨gs.nextId, gs.nextRef⟩] }, ?_, e0,
          e0.with_new_data gs.nextRef, ?_, ?_, rfl, he0d, rfl⟩
      · unfold GameState.drain
        dsimp only
        rw [hdr2]
        rfl
      · show mapInsert R0 gs.nextId (e0.with_new_data gs.nextRef) h1.id = some e0
        rw [mapInsert_ne _ _ _ _ (by have := live_id h1 hmem; omega)]
        exact he0
      · show mapInsert R0 gs.nextId (e0.with_new_data gs.nextRef) gs.nextId = _
        exact mapInsert_same ..

/-- Witness for C3: construct a triangle model and clone it; every
hypothesis of the theorem is discharged by computation on that state. -/
theorem clone_independence_witness :
    ∃ gs h1 gs2,
      stepAll initState [Op.construct envTrivial bTriangle] = some gs ∧
      gs.live.find? (fun h2 => h2.id == 1) = some h1 ∧
      step gs (Op.cloneOp 1) = some gs2 ∧ h1.data ≠ gs.nextRef :=
  ⟨_, _, _, rfl, rfl, rfl,
    (clone_independence _
      (inv_stepAll [Op.construct envTrivial bTriangle] _ rfl) 1 _ rfl _
      rfl).2.1⟩

/-- Counterexample for C4 as stated: `modify` hands the user callback a
mutable reference to the whole `ModelData`, whose `groups` field is a
public `Vec`; a callback that clears it changes the length of the groups
vector, breaking `data.groups.len() == asset.groups.len()` for a live
handle. -/
theorem group_count_counterexample :
    ∃ gs gs2,
      stepAll initState [Op.construct envTrivial bTriangle] = some gs ∧
      step gs (Op.modifyOp 1 fun d => { d with groups := [] }) = some gs2 ∧
      ∃ h, h ∈ gs2.live ∧ ∃ e m c,
        gs2.model_handles h.id = some e ∧
        gs2.assetStore e.model = some m ∧
        gs2.dataStore h.data = some c ∧
        c.value.groups.length ≠ m.groups.length :=
  ⟨_, _, rfl, rfl, ⟨1, 0⟩, by decide, ⟨0, 0⟩, _, _, rfl, rfl, rfl, by decide⟩

/-- The group-count invariant is preserved by a construct operation. -/
theorem ginv_construct (gs : GameState) (env : Env) (b : ModelBuilder)
    (hinv : Inv gs) (hg : GroupInvariant gs) (gs2 : GameState)
    (h : step gs (Op.construct env b) = some gs2) : GroupInvariant gs2 := by
  obtain ⟨-, -, -, -, -, -, -, -, -, -, msgs, R0, hdr, -, -, hbounds⟩ := hinv
  rcases build_result env b gs with ⟨e, he⟩ | ⟨model, hok, hnv, hlen⟩
  · simp only [step, he] at h
    obtain rfl := Option.some.inj h
    exact hg
  · simp only [step, hok] at h
    obtain rfl := Option.some.inj h
    intro R hR n e hne
    dsimp only at hR
    rw [drainReg_mapInsert _ _ _ _ ?hfr, hdr] at hR
    case hfr =>
      intro m hm
      have := msgs m hm
      cases m with
      | NewModel o n2 d =>
        obtain ⟨h1, h2, -, -⟩ := this
        exact ⟨by omega, by omega⟩
      | ModelDropped i =>
        have h1 : i < gs.nextId := this
        exact (by omega : i ≠ gs.nextId)
    simp only [Option.map_some'] at hR
    rw [← Option.some.inj hR] at hne
    unfold lenOk
    dsimp only
    by_cases hcase : n = gs.nextId
    · subst hcase
      rw [mapInsert_same] at hne
      obtain rfl := Option.some.inj hne
      refine ⟨model, ⟨LockState.unlocked,
        ⟨b.position, ⟨b.rotation.x, b.rotation.y, b.rotation.z⟩, b.scale,
         List.replicate model.groups.length ModelDataGroup.default⟩⟩,
        mapInsert_same .., mapInsert_same .., by simp⟩
    · rw [mapInsert_ne _ _ _ _ hcase] at hne
      obtain ⟨hd, hm, -, -⟩ := hbounds n e hne
      obtain ⟨m, c, hma, hca, hlena⟩ := hg R0 hdr n e hne
      refine ⟨m, c, ?_, ?_, hlena⟩
      · rw [mapInsert_ne _ _ _ _ (by omega)]
        exact hma
      · rw [mapInsert_ne _ _ _ _ (by omega)]
        exact hca

/-- The group-count invariant is preserved by a clone operation. -/
theorem ginv_clone (gs : GameState) (i : ℕ)
    (hinv : Inv gs) (hg : GroupInvariant gs) (gs2 : GameState)
    (h : step gs (Op.cloneOp i) = some gs2) : GroupInvariant gs2 := by
  obtain ⟨-, -, live_id, live_ref, live_st, -, -, -, -, -, -, R0, hdr, -,
    hlive, hbounds⟩ := hinv
  cases hfind : gs.live.find? (fun h2 => h2.id == i) with
  | none => simp [step, hfind] at h
  | some h1 =>
    have hmem : h1 ∈ gs.live := List.mem_of_find?_eq_some hfind
    cases hcell : gs.dataStore h1.data with
    | none => exact absurd (live_st h1 hmem) (by rw [hcell]; simp)
    | some cell =>
      rw [step_clone_char gs i h1 cell hfind hcell] at h
      obtain rfl := Option.some.inj h
      obtain ⟨e0, he0, he0d⟩ := hlive h1 hmem
      intro R hR n e hne
      dsimp only at hR
      rw [drainReg_append, hdr] at hR
      simp only [Option.some_bind, drainReg, applyReg, he0,
        Option.map_some', Option.some_bind] at hR
      rw [← Option.some.inj hR] at hne
      unfold lenOk
      dsimp only
      by_cases hcase : n = gs.nextId
      · subst hcase
        rw [mapInsert_same] at hne
        obtain rfl := Option.some.inj hne
        obtain ⟨m, c, hma, hca, hlena⟩ := hg R0 hdr h1.id e0 he0
        have hceq : cell = c := by
          rw [he0d, hcell] at hca
          exact Option.some.inj hca
        subst hceq
        refine ⟨m, ⟨LockState.unlocked, cell.value⟩, hma, mapInsert_same .., hlena⟩
      · rw [mapInsert_ne _ _ _ _ hcase] at hne
        obtain ⟨hd, -, -, -⟩ := hbounds n e hne
        obtain ⟨m, c, hma, hca, hlena⟩ := hg R0 hdr n e hne
        refine ⟨m, c, hma, ?_, hlena⟩
        rw [mapInsert_ne _ _ _ _ (by omega)]
        exact hca

/-- The group-count invariant is preserved by a drop operation. -/
theorem ginv_drop (gs : GameState) (i : ℕ)
    (hinv : Inv gs) (hg : GroupInvariant gs) (gs2 : GameState)
    (h : step gs (Op.dropOp i) = some gs2) : GroupInvariant gs2 := by
  obtain ⟨-, -, -, -, -, -, -, -, -, -, -, R0, hdr, -, -, -⟩ := hinv
  cases hfind : gs.live.find? (fun h2 => h2.id == i) with
  | none => simp [step, hfind] at h
  | some h1 =>
    rw [step_drop_char gs i h1 hfind] at h
    obtain rfl := Option.some.inj h
    intro R hR n e hne
    dsimp only at hR
    rw [drainReg_append, hdr] at hR
    simp only [Option.some_bind, drainReg, applyReg, Option.some_bind] at hR
    rw [← Option.some.inj hR] at hne
    by_cases hcase : n = h1.id
    · subst hcase
      rw [mapRemove_same] at hne
      cases hne
    · rw [mapRemove_ne _ _ _ hcase] at hne
      exact hg R0 hdr n e hne

/-- The group-count invariant is preserved by a modify operation whose
callback preserves the length of the groups vector. -/
theorem ginv_modify (gs : GameState) (i : ℕ) (cb : ModelData → ModelData)
    (hpres : ∀ d, (cb d).groups.length = d.groups.length)
    (hinv : Inv gs) (hg : GroupInvariant gs) (gs2 : GameState)
    (h : step gs (Op.modifyOp i cb) = some gs2) : GroupInvariant gs2 := by
  obtain ⟨-, -, -, -, live_st, -, -, -, -, -, -, R0, hdr, -, -, -⟩ := hinv
  cases hfind : gs.live.find? (fun h2 => h2.id == i) with
  | none => simp [step, hfind] at h
  | some h1 =>
    have hmem : h1 ∈ gs.live := List.mem_of_find?_eq_some hfind
    cases hcell : gs.dataStore h1.data with
    | none => exact absurd (live_st h1 hmem) (by rw [hcell]; simp)
    | some cell =>
      rw [step_modify_char gs i cb h1 cell hfind hcell] at h
      obtain rfl := Option.some.inj h
      intro R hR n e hne
      dsimp only at hR
      rw [hdr] at hR
      rw [← Option.some.inj hR] at hne
      obtain ⟨m, c, hma, hca, hlena⟩ := hg R0 hdr n e hne
      unfold lenOk
      dsimp only
      by_cases hcase : e.data = h1.data
      · refine ⟨m, ⟨LockState.unlocked, cb cell.value⟩, hma, ?_, ?_⟩
        · rw [hcase]
          exact mapInsert_same ..
        · have hceq : cell = c := by
            rw [hcase, hcell] at hca
            exact Option.some.inj hca
          subst hceq
          show (cb cell.value).groups.length = m.groups.length
          rw [hpres]
          exact hlena
      · refine ⟨m, c, hma, ?_, hlena⟩
        rw [mapInsert_ne _ _ _ _ hcase]
        exact hca

/-- The group-count invariant is preserved by every length-preserving
operation. -/
theorem ginv_step (gs : GameState) (op : Op) (gs2 : GameState)
    (hinv : Inv gs) (hg : GroupInvariant gs) (hop : op.lengthPreserving)
    (h : step gs op = some gs2) : GroupInvariant gs2 := by
  cases op with
  | construct env b => exact ginv_construct gs env b hinv hg gs2 h
  | cloneOp i => exact ginv_clone gs i hinv hg gs2 h
  | dropOp i => exact ginv_drop gs i hinv hg gs2 h
  | modifyOp i cb => exact ginv_modify gs i cb hop hinv hg gs2 h

/-- The group-count invariant holds initially. -/
theorem ginv_initState : GroupInvariant initState := by
  intro R hR n e hne
  obtain rfl := (Option.some.inj hR).symm
  cases hne

/-- The group-count invariant holds in every state reachable by
length-preserving operations. -/
theorem ginv_stepAll_aux (ops : List Op) (gs gs2 : GameState)
    (hinv : Inv gs) (hg : GroupInvariant gs)
    (hops : ∀ op ∈ ops, op.lengthPreserving)
    (h : stepAll gs ops = some gs2) : GroupInvariant gs2 := by
  induction ops generalizing gs with
  | nil =>
    obtain rfl := Option.some.inj h
    exact hg
  | cons op rest ih =>
    simp only [stepAll] at h
    cases hs : step gs op with
    | none => rw [hs] at h; simp at h
    | some gs1 =>
      rw [hs] at h
      simp only [Option.some_bind] at h
      exact ih gs1 (inv_step gs op gs1 hinv hs)
        (ginv_step gs op gs1 hinv hg (hops op (List.mem_cons_self op rest)) hs)
        (fun op2 hop2 => hops op2 (List.mem_cons_of_mem op hop2)) h

/-- Claim C4, amended: the relation `data.groups.len() == asset.groups.len()`
is established at construction and preserved by clone and by every `modify`
whose callback preserves the length of the groups vector; under that
proviso it holds, after a full drain, for every registry entry and for
every live handle.  (As frozen the claim is false: a `modify` callback may
change the length — see the counterexample.) -/
theorem group_count_invariant (ops : List Op)
    (hops : ∀ op ∈ ops, op.lengthPreserving)
    (h : (stepAll initState ops).isSome = true) :
    ∃ R, drainReg ((stepAll initState ops).get h).queue
        ((stepAll initState ops).get h).model_handles = some R ∧
      (∀ n e, R n = some e → lenOk ((stepAll initState ops).get h) e) ∧
      (∀ h2 ∈ ((stepAll initState ops).get h).live,
        ∃ e, R h2.id = some e ∧ e.data = h2.data ∧
          lenOk ((stepAll initState ops).get h) e) := by
  have hstep : stepAll initState ops = some ((stepAll initState ops).get h) :=
    (Option.some_get h).symm
  have hg := ginv_stepAll_aux ops initState _ inv_initState ginv_initState
    hops hstep
  obtain ⟨-, -, -, -, -, -, -, -, -, -, -, R0, hdr, -, hlive, -⟩ :=
    inv_stepAll ops _ hstep
  refine ⟨R0, hdr, fun n e hne => hg R0 hdr n e hne, ?_⟩
  intro h2 hmem
  obtain ⟨e, he, hed⟩ := hlive h2 hmem
  exact ⟨e, he, hed, hg R0 hdr h2.id e he⟩

/-- Witness for C4 (amended): one construct operation; its (vacuous)
length-preservation hypothesis and the performability hypothesis are
discharged by computation. -/
theorem group_count_invariant_witness :
    (∀ op ∈ [Op.construct envTrivial bTriangle], op.lengthPreserving) ∧
    ∃ R, drainReg ((stepAll initState
          [Op.construct envTrivial bTriangle]).get rfl).queue
        ((stepAll initState
          [Op.construct envTrivial bTriangle]).get rfl).model_handles =
        some R ∧
      (∀ n e, R n = some e → lenOk ((stepAll initState
          [Op.construct envTrivial bTriangle]).get rfl) e) ∧
      (∀ h2 ∈ ((stepAll initState
          [Op.construct envTrivial bTriangle]).get rfl).live,
        ∃ e, R h2.id = some e ∧ e.data = h2.data ∧
          lenOk ((stepAll initState
            [Op.construct envTrivial bTriangle]).get rfl) e) :=
  ⟨fun op hop => by
      obtain rfl := List.mem_singleton.mp hop
      trivial,
   group_count_invariant [Op.construct envTrivial bTriangle]
     (fun op hop => by
       obtain rfl := List.mem_singleton.mp hop
       trivial)
     rfl⟩

end CrystalEngine
